import Mathlib

/-!
# A verification development for `shell.c`

The file embeds the command-line parser (`parseLine`) and the interpreter loop
(`main`) of `src/shell.c` and proves properties of them.

Conventions of the embedding:

* a C string is the list of the characters that precede its terminating NUL
  (`CStr`); a `char*` that may be `NULL` is an `Option CStr`;
* `strtok` is described by the token it returns, the string found at the
  position it saves for the next call and the way the scanned string reads
  afterwards (it overwrites the delimiter that ends the token with a NUL);
* loops of the source that carry no syntactic bound run on fuel and return `none`
  when the fuel is used up; the theorems show that the fuel given suffices or,
  where that is the point, that no amount of fuel does.
-/

namespace Shell

/-- A C string: the characters before the terminating NUL. -/
abbrev CStr := List Char

/-- The constant `MAX_LENGTH` (line 16): maximum length of a command. -/
def MAX_LENGTH : Nat := 80

/-- What one call of `strtok` yields. -/
structure StrtokResult where
  /-- the pointer returned: the token, or `none` for `NULL` -/
  token : Option CStr
  /-- the string at the position saved for the next `strtok(NULL, ...)` -/
  save : CStr
  /-- the scanned string as it reads from its start after the call -/
  buf : CStr
deriving DecidableEq

/-- The library function `strtok`, applied at the string `s` (the first argument, or
the saved position when the first argument is `NULL`) with delimiter set `delim`:
leading delimiters are skipped (`strspn`); if nothing is left the result is `NULL` and
the saved position is the end of the string; otherwise the token runs up to the next
delimiter (`strcspn`), that delimiter is overwritten with NUL and the saved position
is the character behind it, or the end of the string if no delimiter follows. -/
def strtok (s delim : CStr) : StrtokResult :=
  match s.dropWhile (fun c => delim.contains c) with
  | [] => ⟨none, [], s⟩
  | c :: s1 =>
    let tok := (c :: s1).takeWhile (fun c => !delim.contains c)
    match (c :: s1).dropWhile (fun c => !delim.contains c) with
    | [] => ⟨some tok, [], s⟩
    | _ :: rest => ⟨some tok, rest, s.takeWhile (fun c => delim.contains c) ++ tok⟩

/-- The array `mods` of command modifiers (line 61):
`[0]` &, `[1]` >, `[2]` <, `[3]` |, `[4]` file, `[5]` second command.
The four flags are the strings `"0"` and `"1"` of the source. -/
structure Mods where
  /-- `mods[0]` -/
  background : CStr
  /-- `mods[1]` -/
  outputRedirect : CStr
  /-- `mods[2]` -/
  inputRedirect : CStr
  /-- `mods[3]` -/
  hasPipeline : CStr
  /-- `mods[4]`, `none` for `NULL` -/
  redirectTarget : Option CStr
  /-- `mods[5]`, `none` for `NULL` -/
  pipelineTail : Option CStr
deriving DecidableEq

/-- The initializer of `mods` in `main` (line 61): `{"0", "0", "0", "0", NULL, NULL}`. -/
def initMods : Mods :=
  ⟨"0".toList, "0".toList, "0".toList, "0".toList, none, none⟩

/-- The `while (token != NULL)` loop of `parseLine` (lines 34-48). The state is the
current `token`, the position saved by `strtok` (`save`), the arguments stored so far
(`args[0 .. counter-1]`, so `counter = args.length`) and `mods`. -/
def parseLoop : Nat → Option CStr → CStr → List CStr → Mods → Option (List CStr × Mods)
  | 0, _, _, _, _ => none
  | _ + 1, none, _, args, mods => some (args, mods)
  | fuel + 1, some token, save, args, mods =>
    if token = ">".toList then
      let f := strtok save " ".toList
      let t := strtok f.save " ".toList
      parseLoop fuel t.token t.save args
        { mods with outputRedirect := "1".toList, redirectTarget := f.token }
    else if token = "<".toList then
      let f := strtok save " ".toList
      let t := strtok f.save " ".toList
      parseLoop fuel t.token t.save args
        { mods with inputRedirect := "1".toList, redirectTarget := f.token }
    else if token = "|".toList then
      let f := strtok save []
      let t := strtok f.save " ".toList
      parseLoop fuel t.token t.save args
        { mods with hasPipeline := "1".toList, pipelineTail := f.token }
    else
      let t := strtok save " ".toList
      parseLoop fuel t.token t.save (args ++ [token]) mods

/-- What `parseLine` leaves behind. -/
structure ParseResult where
  /-- the buffer `line` as it reads from its start after the in-place edits -/
  line : CStr
  /-- `args[0 .. counter-1]`; `args[counter]` is `NULL` -/
  args : List CStr
  /-- the array `mods` -/
  mods : Mods
deriving DecidableEq

/-- Lines 32-49 of `parseLine`: the first `strtok(line, " ")`, the loop and the final
`args[counter] = NULL`. -/
def tokenize (line : CStr) (mods : Mods) : Option ParseResult :=
  let t := strtok line " ".toList
  (parseLoop (line.length + 1) t.token t.save [] mods).map
    fun r => ⟨t.buf, r.1, r.2⟩

/-- The function `parseLine` (lines 26-50). On the empty string `strlen(line) - 1`
wraps around and the test reads outside the string: no result (`none`). -/
def parseLine (line : CStr) (mods : Mods) : Option ParseResult :=
  if line = [] then none
  else if line.getLast? = some '&' then
    tokenize line.dropLast { mods with background := "1".toList }
  else
    tokenize line mods

/-- The contents of the array `args` that `parseLine` has written: the arguments in
slots `0 .. counter-1` and `NULL` in slot `counter`. -/
def ParseResult.argv (r : ParseResult) : List (Option CStr) :=
  r.args.map some ++ [none]


/-- Maximal runs of characters that are not separators, left to right: the pieces
between separators, without the empty ones. -/
def splitRuns (isSep : Char → Bool) (s : CStr) : List CStr :=
  (s.splitOnP isSep).filter (fun t => t ≠ [])

/-- The tokens of a line separated by the space character. -/
def spaceSplit (s : CStr) : List CStr :=
  splitRuns (fun c => c == ' ') s

/-- The tokens of a line separated by whitespace (space, tab, carriage return,
newline). -/
def whitespaceSplit (s : CStr) : List CStr :=
  splitRuns Char.isWhitespace s

/-- The operator tokens `>`, `<` and `|`. -/
def isOperator (t : CStr) : Bool :=
  t = ">".toList || t = "<".toList || t = "|".toList

/-- The redirect operators `>` and `<`. -/
def isRedirect (t : CStr) : Bool :=
  t = ">".toList || t = "<".toList

/-- The tokens that are left as arguments when every redirect operator `>` or `<` is
taken out together with the token behind it, its target. -/
def redirectArgs : List CStr → List CStr
  | [] => []
  | [t] => if isRedirect t then [] else [t]
  | t :: f :: rest =>
    if isRedirect t then redirectArgs rest else t :: redirectArgs (f :: rest)

/-- The modifiers that the redirect operators among the tokens leave: each `>` sets
`mods[1]`, each `<` sets `mods[2]`, and the token behind the operator (none when the
operator is the last token) becomes the redirect target `mods[4]`. -/
def redirectMods : List CStr → Mods → Mods
  | [], m => m
  | [t], m =>
    if t = ">".toList then { m with outputRedirect := "1".toList, redirectTarget := none }
    else if t = "<".toList then { m with inputRedirect := "1".toList, redirectTarget := none }
    else m
  | t :: f :: rest, m =>
    if t = ">".toList then
      redirectMods rest { m with outputRedirect := "1".toList, redirectTarget := some f }
    else if t = "<".toList then
      redirectMods rest { m with inputRedirect := "1".toList, redirectTarget := some f }
    else redirectMods (f :: rest) m

/-! ### The interpreter loop of `main` -/

/-- The descriptors that `main` handles. -/
inductive Desc where
  /-- `pipeFD[0]`, the read end -/
  | pipeRead
  /-- `pipeFD[1]`, the write end -/
  | pipeWrite
  /-- `STDIN_FILENO` -/
  | stdin
  /-- `STDOUT_FILENO` -/
  | stdout
  /-- the descriptor `fd` returned by `open` -/
  | file
deriving DecidableEq

/-- What a process does that can be seen from outside: its output and its system
calls, with the value each call returned. -/
inductive Event where
  /-- `printf` of the given text -/
  | printf (text : CStr)
  /-- `pipe(pipeFD)` -/
  | pipe (ret : Int)
  /-- `fork()` -/
  | fork (ret : Int)
  /-- `close(fd)` -/
  | close (fd : Desc)
  /-- `dup2(fd, std)` -/
  | dup2 (fd std : Desc)
  /-- `open(path, ...)`, for writing (`O_WRONLY | O_CREAT | O_TRUNC`) or for reading -/
  | openFile (path : Option CStr) (forWriting : Bool) (ret : Int)
  /-- `execvp(file, argv)` -/
  | execvp (file : CStr) (argv : List (Option CStr))
  /-- `waitpid(pid, NULL, WNOHANG)` -/
  | waitpid (pid : Int) (ret : Int)
  /-- `wait(NULL)` -/
  | wait (ret : Int)
  /-- `exit(status)` -/
  | exit (status : Nat)
deriving DecidableEq

/-- How a process leaves one round of the loop. -/
inductive Control where
  /-- the body is done and `should_run` is still 1: the next prompt follows -/
  | next
  /-- the loop is left (`should_run = 0` or `break`): `main` returns 0 -/
  | leave
  /-- the process has called `exit(status)` -/
  | exited (status : Nat)
  /-- `execvp` has replaced the process image -/
  | replaced
  /-- the process is still in the reap sweep of line 151 when the fuel is used up -/
  | sweeping
  /-- the process stays blocked in `wait(NULL)`: no child of it ever exits -/
  | blocked
  /-- no defined behaviour (a `NULL` string is read) -/
  | undefined
deriving DecidableEq

/-- A child of a process that the process has not waited for yet. -/
structure Child where
  /-- its process identifier -/
  pid : Int
  /-- whether it has terminated -/
  exited : Bool
deriving DecidableEq

/-- The children of a process that it has not waited for yet. -/
abbrev Table := List Child

/-- The system call `waitpid(-1, NULL, WNOHANG)`: a terminated child is reaped and its
identifier returned; 0 when there are children and none has terminated; -1 when the
process has no children. -/
def waitpidAny (tbl : Table) : Int × Table :=
  match tbl.find? (fun c => c.exited) with
  | some c => (c.pid, tbl.erase c)
  | none => if tbl = [] then (-1, tbl) else (0, tbl)

/-- The system call `waitpid(pid, NULL, WNOHANG)` for one child. -/
def waitpidChild (pid : Int) (tbl : Table) : Int × Table :=
  match tbl.find? (fun c => c.pid = pid) with
  | some c => if c.exited then (pid, tbl.erase c) else (0, tbl)
  | none => (-1, tbl)

/-- The system call `wait(NULL)`: a terminated child is reaped at once; without
children the call returns -1; otherwise the process is blocked until a child
terminates, and `firstExit` names the child that does so first (`none`: none ever
does, and the call does not return). -/
def waitAny (firstExit : Option Int) (tbl : Table) : Option (Int × Table) :=
  match tbl.find? (fun c => c.exited) with
  | some c => some (c.pid, tbl.erase c)
  | none =>
    if tbl = [] then some (-1, tbl)
    else
      match firstExit with
      | none => none
      | some pid =>
        if tbl.any (fun c => c.pid = pid) then some (pid, tbl.filter (fun c => c.pid ≠ pid))
        else none

/-- The surroundings of one round of the loop, as the process that runs it meets
them: the values the system calls return, and what is in memory that the program has
not initialized. -/
structure Env where
  /-- the value of `pipe(pipeFD)` (line 87) -/
  pipeRet : Int
  /-- the value of `fork()` (line 93) -/
  forkRet : Int
  /-- the value of `fork()` in the child (line 103) -/
  fork2Ret : Int
  /-- the value of `open(...)` (lines 125, 133) -/
  openRet : Int
  /-- whether `execvp(args[0], args)` returns (the program is not found) -/
  exec1Fails : Bool
  /-- whether `execvp(args2[0], args2)` returns -/
  exec2Fails : Bool
  /-- the contents of the uninitialized array `mods2` (line 100) -/
  mods2 : Mods
  /-- the children left from earlier commands when the round begins -/
  children : Table
  /-- whether the child forked in this round has terminated when the parent reaches
  line 151 -/
  childExited : Bool
  /-- the child that terminates first while the parent is blocked in `wait(NULL)` -/
  firstExit : Option Int

/-- The loop `while (waitpid(-1, NULL, WNOHANG) != 0);` of line 151. The last component
tells whether the loop has ended within the fuel. -/
def sweep : Nat → Table → List Event × Table × Bool
  | 0, tbl => ([], tbl, false)
  | fuel + 1, tbl =>
    let w := waitpidAny tbl
    if w.1 ≠ 0 then
      let r := sweep fuel w.2
      (Event.waitpid (-1) w.1 :: r.1, r.2.1, r.2.2)
    else
      ([Event.waitpid (-1) w.1], w.2, true)

/-- The parent after `fork` (lines 147-156): it closes both ends of the pipe, reaps the
children that have terminated and waits. -/
def parent (fuel : Nat) (mods : Mods) (pid : Int) (env : Env) : List Event × Table × Control :=
  let closes :=
    if mods.hasPipeline = "1".toList then [Event.close Desc.pipeRead, Event.close Desc.pipeWrite]
    else []
  let s := sweep fuel (env.children ++ [⟨pid, env.childExited⟩])
  if s.2.2 = false then (closes ++ s.1, s.2.1, Control.sweeping)
  else if mods.background = "0".toList then
    match waitAny env.firstExit s.2.1 with
    | none => (closes ++ s.1, s.2.1, Control.blocked)
    | some w => (closes ++ s.1 ++ [Event.wait w.1], w.2, Control.next)
  else
    let w := waitpidChild pid s.2.1
    (closes ++ s.1 ++ [Event.waitpid pid w.1], w.2, Control.next)

/-- The text `Error: Command '<name>' not found.` with its newline (lines 112, 120). -/
def notFound (name : CStr) : CStr :=
  "Error: Command '".toList ++ name ++ "' not found.\n".toList

/-- The child after `fork` (lines 98-145). `arg0` is `args[0]`, which line 82 has
found not to be `NULL`. -/
def child (arg0 : CStr) (r : ParseResult) (env : Env) : List Event × Control :=
  if r.mods.hasPipeline = "1".toList then
    match r.mods.pipelineTail with
    | none => ([], Control.undefined)
    | some tail =>
      match parseLine tail env.mods2 with
      | none => ([], Control.undefined)
      | some r2 =>
        if env.fork2Ret < 0 then
          ([Event.fork env.fork2Ret, Event.printf "Error in process creation.\n".toList],
            Control.leave)
        else if env.fork2Ret = 0 then
          let pre := [Event.fork env.fork2Ret, Event.close Desc.pipeRead,
            Event.dup2 Desc.pipeWrite Desc.stdout, Event.execvp arg0 r.argv]
          if env.exec1Fails then
            (pre ++ [Event.printf (notFound arg0), Event.exit 1], Control.exited 1)
          else (pre, Control.replaced)
        else
          let pre := [Event.fork env.fork2Ret, Event.wait env.fork2Ret,
            Event.close Desc.pipeWrite, Event.dup2 Desc.pipeRead Desc.stdin]
          match r2.args with
          | [] => (pre, Control.undefined)
          | arg20 :: _ =>
            if env.exec2Fails then
              (pre ++ [Event.execvp arg20 r2.argv, Event.printf (notFound arg20), Event.exit 1],
                Control.exited 1)
            else (pre ++ [Event.execvp arg20 r2.argv], Control.replaced)
  else
    let run : List Event × Control :=
      if env.exec1Fails then
        ([Event.execvp arg0 r.argv,
          Event.printf ("Errdor: Command '".toList ++ arg0 ++ "' not found.\n".toList),
          Event.exit 1], Control.exited 1)
      else ([Event.execvp arg0 r.argv], Control.replaced)
    if r.mods.outputRedirect = "1".toList then
      if env.openRet > 0 then
        ([Event.openFile r.mods.redirectTarget true env.openRet,
          Event.dup2 Desc.file Desc.stdout] ++ run.1, run.2)
      else
        ([Event.openFile r.mods.redirectTarget true env.openRet,
          Event.printf "Error in file open.\n".toList], Control.leave)
    else if r.mods.inputRedirect = "1".toList then
      if env.openRet > 0 then
        ([Event.openFile r.mods.redirectTarget false env.openRet,
          Event.dup2 Desc.file Desc.stdin] ++ run.1, run.2)
      else
        ([Event.openFile r.mods.redirectTarget false env.openRet,
          Event.printf "Error in file open.\n".toList], Control.leave)
    else run

/-- Lines 82-158: what follows the call of `parseLine`. -/
def execute (fuel : Nat) (r : ParseResult) (env : Env) : List Event × Table × Control :=
  match r.args with
  | [] =>
    ([Event.printf ("Error: Syntax error near unexpected token '".toList ++ r.line ++
        "'.\n".toList)], env.children, Control.next)
  | arg0 :: _ =>
    if r.mods.hasPipeline = "1".toList ∧ env.pipeRet < 0 then
      ([Event.pipe env.pipeRet, Event.printf "Error in pipe creation.\n".toList],
        env.children, Control.leave)
    else
      let pipes :=
        if r.mods.hasPipeline = "1".toList then [Event.pipe env.pipeRet] else []
      if env.forkRet < 0 then
        (pipes ++ [Event.fork env.forkRet, Event.printf "Error in process creation.\n".toList],
          env.children, Control.leave)
      else if env.forkRet = 0 then
        let c := child arg0 r env
        (pipes ++ [Event.fork env.forkRet] ++ c.1, [], c.2)
      else
        let p := parent fuel r.mods env.forkRet env
        (pipes ++ [Event.fork env.forkRet] ++ p.1, p.2.1, p.2.2)

/-- The library function `strncpy(dst, src, n)` for a destination of `n` bytes, as the
string then found in the destination: the first `n` characters of `src` (a `src` shorter
than `n` is copied whole and padded with NUL). -/
def strncpy (src : CStr) (n : Nat) : CStr :=
  src.take n

/-- What one round of the loop leaves behind. -/
structure IterResult where
  /-- output and system calls, in order -/
  trace : List Event
  /-- the buffer `history` -/
  history : CStr
  /-- the string handed to `parseLine` at line 80, if the round gets there -/
  parsed : Option CStr
  /-- the children not waited for -/
  children : Table
  /-- how the round ends -/
  control : Control
deriving DecidableEq

/-- One round of the `while (should_run)` loop of `main` (lines 57-160). `history` is
the buffer carried over from the round before (empty at the start, line 55) and `input`
is what `fgets` has stored in `nextLine`, the newline included when the line has
one. -/
def iteration (fuel : Nat) (history input : CStr) (env : Env) : IterResult :=
  let prompt := Event.printf "osh>".toList
  let nextLine := input.takeWhile (fun c => c ≠ '\n')
  if nextLine = "exit".toList then
    ⟨[prompt], history, none, env.children, Control.leave⟩
  else if nextLine = [] then
    ⟨[prompt], history, none, env.children, Control.next⟩
  else if nextLine = "!!".toList ∧ history = [] then
    ⟨[prompt, Event.printf "Error: No commands in history\n".toList], history, none,
      env.children, Control.next⟩
  else
    let again : Bool := nextLine = "!!".toList ∧ history ≠ []
    let nextLine1 := if again then strncpy history (MAX_LENGTH + 1) else nextLine
    let history1 := if again then history else strncpy nextLine (MAX_LENGTH + 1)
    match parseLine nextLine1 initMods with
    | none => ⟨[prompt], history1, some nextLine1, env.children, Control.undefined⟩
    | some r =>
      let e := execute fuel r env
      ⟨prompt :: e.1, history1, some nextLine1, e.2.1, e.2.2⟩

/-- An environment for a parent process: every call succeeds, `fork` returns the child
8, there are no earlier children, and the child is still running when the parent
waits and is the first to exit. -/
def parentEnv : Env :=
  ⟨0, 8, 0, 3, false, false, initMods, [], false, some 8⟩

/-- An environment for a child process whose programs are not found: `fork` returns 0
and `execvp` returns; `fork2Ret` tells which side of the second `fork` it is on. -/
def lostChildEnv (fork2Ret : Int) : Env :=
  ⟨0, 0, fork2Ret, 3, true, true, initMods, [], false, none⟩

/-- The buffer `history` after a sequence of rounds, each given by its fuel, its input
and its environment: `history` is the only variable of `main` that a round hands on to
the next one. -/
def historyAfter (history : CStr) (rounds : List (Nat × CStr × Env)) : CStr :=
  rounds.foldl (fun h b => (iteration b.1 h b.2.1 b.2.2).history) history

/-! ## The tokenizer: `strtok` and the split into space-separated tokens -/

theorem contains_space (c : Char) : (" ".toList).contains c = (c == ' ') := by
  show List.elem c [' '] = (c == ' ')
  cases h : c == ' ' <;> simp [List.elem, h]

theorem splitOnP_unfold (p : Char → Bool) (s : CStr) :
    s.splitOnP p = s.takeWhile (fun c => !p c) ::
      (match s.dropWhile (fun c => !p c) with
        | [] => []
        | _ :: r => r.splitOnP p) := by
  induction s with
  | nil => simp [List.splitOnP_nil]
  | cons c s ih =>
    rw [List.splitOnP_cons]
    by_cases h : p c = true
    · simp [h]
    · simp only [h, if_false]
      rw [ih]
      simp [h, List.modifyHead]

theorem splitRuns_unfold (p : Char → Bool) (s : CStr) :
    splitRuns p s =
      match s.dropWhile p with
      | [] => []
      | c :: s1 => (c :: s1).takeWhile (fun c => !p c) ::
          splitRuns p (((c :: s1).dropWhile (fun c => !p c)).drop 1) := by
  induction s with
  | nil => simp [splitRuns, List.splitOnP_nil]
  | cons c s ih =>
    by_cases h : p c = true
    · rw [List.dropWhile_cons_of_pos h, ← ih]
      simp [splitRuns, List.splitOnP_cons, h]
    · rw [List.dropWhile_cons_of_neg h]
      simp only [splitRuns]
      rw [splitOnP_unfold]
      simp only [h, Bool.not_false, List.takeWhile_cons_of_pos, List.dropWhile_cons_of_pos,
        Bool.false_eq_true, not_false_eq_true]
      rw [List.filter_cons_of_pos (by simp)]
      congr 1
      cases hd : List.dropWhile (fun c => !p c) s with
      | nil => simp [List.splitOnP_nil]
      | cons d r => simp

/-- One call of `strtok(…, " ")` takes the first space-separated token off the string. -/
theorem spaceSplit_strtok (s : CStr) :
    spaceSplit s =
      match (strtok s " ".toList).token with
      | none => []
      | some t => t :: spaceSplit (strtok s " ".toList).save := by
  unfold spaceSplit
  rw [splitRuns_unfold]
  unfold strtok
  simp only [contains_space]
  cases h1 : List.dropWhile (fun c => c == ' ') s with
  | nil => simp
  | cons c s1 =>
    simp only
    cases h2 : List.dropWhile (fun c => !(c == ' ')) (c :: s1) with
    | nil => simp [splitRuns, List.splitOnP_nil]
    | cons d r => simp

theorem strtok_nil (d : CStr) : strtok [] d = ⟨none, [], []⟩ := rfl

theorem length_dropWhile_le (p : Char → Bool) (s : CStr) :
    (s.dropWhile p).length ≤ s.length := by
  have h := congrArg List.length (List.takeWhile_append_dropWhile p s)
  simp only [List.length_append] at h
  omega

theorem mem_of_mem_dropWhile (p : Char → Bool) (s : CStr) (c : Char)
    (h : c ∈ s.dropWhile p) : c ∈ s := by
  rw [← List.takeWhile_append_dropWhile p s]
  exact List.mem_append_right _ h

theorem mem_of_mem_takeWhile (p : Char → Bool) (s : CStr) (c : Char)
    (h : c ∈ s.takeWhile p) : c ∈ s := by
  rw [← List.takeWhile_append_dropWhile p s]
  exact List.mem_append_left _ h

/-- The three ways a call of `strtok` can go. -/
theorem strtok_cases (s d : CStr) :
    (s.dropWhile (fun c => d.contains c) = [] ∧ strtok s d = ⟨none, [], s⟩) ∨
    (∃ c s1, s.dropWhile (fun c => d.contains c) = c :: s1 ∧
      (c :: s1).dropWhile (fun c => !d.contains c) = [] ∧
      strtok s d = ⟨some ((c :: s1).takeWhile (fun c => !d.contains c)), [], s⟩) ∨
    (∃ c s1 e r, s.dropWhile (fun c => d.contains c) = c :: s1 ∧
      (c :: s1).dropWhile (fun c => !d.contains c) = e :: r ∧
      strtok s d = ⟨some ((c :: s1).takeWhile (fun c => !d.contains c)), r,
        s.takeWhile (fun c => d.contains c) ++
          (c :: s1).takeWhile (fun c => !d.contains c)⟩) := by
  unfold strtok
  cases h1 : List.dropWhile (fun c => d.contains c) s with
  | nil => exact Or.inl ⟨rfl, rfl⟩
  | cons c s1 =>
    cases h2 : List.dropWhile (fun c => !d.contains c) (c :: s1) with
    | nil =>
      refine Or.inr (Or.inl ⟨c, s1, rfl, h2, ?_⟩)
      simp only [h2]
    | cons e r =>
      refine Or.inr (Or.inr ⟨c, s1, e, r, rfl, h2, ?_⟩)
      simp only [h2]

theorem head_dropWhile_false (p : Char → Bool) (s s1 : CStr) (c : Char)
    (h : s.dropWhile p = c :: s1) : p c = false := by
  have := List.head_dropWhile_not p s (by simp [h])
  simpa [h] using this

/-- The shape of a call of `strtok` that returns a token. -/
theorem strtok_some (s d t : CStr) (h : (strtok s d).token = some t) :
    t ≠ [] ∧ (∀ c ∈ t, c ∈ s) ∧ (∀ c ∈ (strtok s d).save, c ∈ s) ∧
      (((strtok s d).save.length + t.length + 1 ≤ s.length) ∨
        ((strtok s d).save = [] ∧ t.length ≤ s.length)) := by
  rcases strtok_cases s d with ⟨_, he⟩ | ⟨c, s1, h1, h2, he⟩ | ⟨c, s1, e, r, h1, h2, he⟩
  · rw [he] at h
    simp at h
  · rw [he] at h ⊢
    simp only [Option.some.injEq] at h
    have hlen := length_dropWhile_le (fun c => d.contains c) s
    have hmem := mem_of_mem_dropWhile (fun c => d.contains c) s
    rw [h1] at hlen hmem
    have hc := head_dropWhile_false _ _ _ _ h1
    have hlen2 := congrArg List.length
      (List.takeWhile_append_dropWhile (fun c => !d.contains c) (c :: s1))
    rw [h2, h] at hlen2
    simp only [List.length_append, List.length_nil, List.length_cons] at hlen2 hlen
    refine ⟨?_, ?_, by simp, Or.inr ⟨rfl, by omega⟩⟩
    · rw [← h, List.takeWhile_cons_of_pos (by simp only [hc]; rfl)]
      simp
    · intro x hx
      rw [← h] at hx
      exact hmem x (mem_of_mem_takeWhile _ _ x hx)
  · rw [he] at h ⊢
    simp only [Option.some.injEq] at h
    have hlen := length_dropWhile_le (fun c => d.contains c) s
    have hmem := mem_of_mem_dropWhile (fun c => d.contains c) s
    rw [h1] at hlen hmem
    have hc := head_dropWhile_false _ _ _ _ h1
    have hlen2 := congrArg List.length
      (List.takeWhile_append_dropWhile (fun c => !d.contains c) (c :: s1))
    rw [h2, h] at hlen2
    simp only [List.length_append, List.length_cons] at hlen2 hlen
    refine ⟨?_, ?_, ?_, Or.inl (by simp only []; omega)⟩
    · rw [← h, List.takeWhile_cons_of_pos (by simp only [hc]; rfl)]
      simp
    · intro x hx
      rw [← h] at hx
      exact hmem x (mem_of_mem_takeWhile _ _ x hx)
    · intro x hx
      apply hmem x
      apply mem_of_mem_dropWhile (fun c => !d.contains c)
      rw [h2]
      exact List.mem_cons_of_mem _ hx

theorem strtok_none (s d : CStr) (h : (strtok s d).token = none) :
    (strtok s d).save = [] := by
  rcases strtok_cases s d with ⟨_, he⟩ | ⟨c, s1, h1, h2, he⟩ | ⟨c, s1, e, r, h1, h2, he⟩
  · rw [he]
  · rw [he]
  · rw [he] at h
    simp at h

theorem strtok_save_length (s d : CStr) : (strtok s d).save.length ≤ s.length := by
  cases h : (strtok s d).token with
  | none => simp [strtok_none s d h]
  | some t =>
    rcases (strtok_some s d t h).2.2.2 with h1 | h1
    · omega
    · simp [h1.1]

theorem strtok_save_mem (s d : CStr) (c : Char) (hc : c ∈ (strtok s d).save) : c ∈ s := by
  cases h : (strtok s d).token with
  | none => simp [strtok_none s d h] at hc
  | some t => exact (strtok_some s d t h).2.2.1 c hc

/-- The call `strtok(NULL, "\0")` of line 43: the delimiter string is empty, so the
whole rest of the string is the token, and `NULL` is returned when nothing is left. -/
theorem strtok_no_delim (s : CStr) :
    strtok s [] = if s = [] then ⟨none, [], []⟩ else ⟨some s, [], s⟩ := by
  cases s with
  | nil => rfl
  | cons c s =>
    have h1 : ∀ l : CStr, l.dropWhile (fun c => !([] : CStr).contains c) = [] := by
      intro l
      induction l with
      | nil => rfl
      | cons a l ih => simp
    have h2 : ∀ l : CStr, l.takeWhile (fun c => !([] : CStr).contains c) = l := by
      intro l
      induction l with
      | nil => rfl
      | cons a l ih => simp
    unfold strtok
    simp only [List.contains_nil, List.dropWhile_cons_of_neg, Bool.false_eq_true,
      not_false_eq_true]
    have h1' := h1 (c :: s)
    have h2' := h2 (c :: s)
    simp only [List.contains_nil] at h1' h2'
    rw [h1', h2']
    simp

/-! ## The loop of `parseLine` -/

/-- More fuel does not change a result of the loop. -/
theorem parseLoop_mono (fuel : Nat) : ∀ (tok : Option CStr) (sv : CStr) (args : List CStr)
    (m : Mods) (r : List CStr × Mods), parseLoop fuel tok sv args m = some r →
    ∀ k, parseLoop (fuel + k) tok sv args m = some r := by
  induction fuel with
  | zero => intro tok sv args m r h; simp [parseLoop] at h
  | succ n ih =>
    intro tok sv args m r h k
    have e : n + 1 + k = (n + k) + 1 := by omega
    rw [e]
    cases tok with
    | none => simpa [parseLoop] using h
    | some t =>
      simp only [parseLoop] at h ⊢
      split_ifs at h ⊢ with h1 h2 h3
      · exact ih _ _ _ _ _ h k
      · exact ih _ _ _ _ _ h k
      · exact ih _ _ _ _ _ h k
      · exact ih _ _ _ _ _ h k

/-- The loop ends on every string whose length is below the fuel, and what it stores
is bounded by and taken from that string. -/
theorem parseLoop_spec (fuel : Nat) : ∀ (s : CStr) (args : List CStr) (m : Mods),
    s.length < fuel →
    ∃ a m', parseLoop fuel (strtok s " ".toList).token (strtok s " ".toList).save args m
        = some (a, m') ∧
      a.length ≤ args.length + (s.length + 1) / 2 ∧
      (∀ x ∈ a, x ∈ args ∨ ∀ c ∈ x, c ∈ s) ∧
      (∀ x, m'.redirectTarget = some x → m.redirectTarget = some x ∨ ∀ c ∈ x, c ∈ s) ∧
      (∀ x, m'.pipelineTail = some x →
        m.pipelineTail = some x ∨ (x ≠ [] ∧ x.length ≤ s.length ∧ ∀ c ∈ x, c ∈ s)) := by
  induction fuel with
  | zero => intro s args m h; omega
  | succ n ih =>
    intro s args m hlen
    cases ht : (strtok s " ".toList).token with
    | none =>
      refine ⟨args, m, by simp [parseLoop], by omega, fun x hx => Or.inl hx,
        fun x hx => Or.inl hx, fun x hx => Or.inl hx⟩
    | some t =>
      obtain ⟨htne, htmem, hsvmem, hsz⟩ := strtok_some s _ t ht
      have htpos : 0 < t.length := List.length_pos.mpr htne
      have hsv : (strtok s " ".toList).save.length < n := by
        rcases hsz with h | h
        · omega
        · rw [h.1]; simp only [List.length_nil]; omega
      have hhalf : ((strtok s " ".toList).save.length + 1) / 2 + 1 ≤ (s.length + 1) / 2 := by
        rcases hsz with h | h
        · omega
        · rw [h.1]; simp only [List.length_nil]; omega
      simp only [parseLoop]
      split_ifs with h1 h2 h3
      · -- `>`
        have hf := strtok_save_length (strtok s " ".toList).save " ".toList
        obtain ⟨a, m', he, hb, ha, hr, hp⟩ := ih (strtok (strtok s " ".toList).save " ".toList).save
          args { m with outputRedirect := "1".toList,
                        redirectTarget := (strtok (strtok s " ".toList).save " ".toList).token }
          (by omega)
        refine ⟨a, m', he, by omega, ?_, ?_, ?_⟩
        · intro x hx
          rcases ha x hx with h | h
          · exact Or.inl h
          · exact Or.inr fun c hc => hsvmem c (strtok_save_mem _ _ c (h c hc))
        · intro x hx
          rcases hr x hx with h | h
          · exact Or.inr fun c hc => hsvmem c ((strtok_some _ _ x h).2.1 c hc)
          · exact Or.inr fun c hc => hsvmem c (strtok_save_mem _ _ c (h c hc))
        · intro x hx
          rcases hp x hx with h | ⟨h, h', h''⟩
          · exact Or.inl h
          · exact Or.inr ⟨h, by omega, fun c hc => hsvmem c (strtok_save_mem _ _ c (h'' c hc))⟩
      · -- `<`
        have hf := strtok_save_length (strtok s " ".toList).save " ".toList
        obtain ⟨a, m', he, hb, ha, hr, hp⟩ := ih (strtok (strtok s " ".toList).save " ".toList).save
          args { m with inputRedirect := "1".toList,
                        redirectTarget := (strtok (strtok s " ".toList).save " ".toList).token }
          (by omega)
        refine ⟨a, m', he, by omega, ?_, ?_, ?_⟩
        · intro x hx
          rcases ha x hx with h | h
          · exact Or.inl h
          · exact Or.inr fun c hc => hsvmem c (strtok_save_mem _ _ c (h c hc))
        · intro x hx
          rcases hr x hx with h | h
          · exact Or.inr fun c hc => hsvmem c ((strtok_some _ _ x h).2.1 c hc)
          · exact Or.inr fun c hc => hsvmem c (strtok_save_mem _ _ c (h c hc))
        · intro x hx
          rcases hp x hx with h | ⟨h, h', h''⟩
          · exact Or.inl h
          · exact Or.inr ⟨h, by omega, fun c hc => hsvmem c (strtok_save_mem _ _ c (h'' c hc))⟩
      · -- `|`
        have hf := strtok_save_length (strtok s " ".toList).save []
        obtain ⟨a, m', he, hb, ha, hr, hp⟩ := ih (strtok (strtok s " ".toList).save []).save
          args { m with hasPipeline := "1".toList,
                        pipelineTail := (strtok (strtok s " ".toList).save []).token }
          (by omega)
        refine ⟨a, m', he, by omega, ?_, ?_, ?_⟩
        · intro x hx
          rcases ha x hx with h | h
          · exact Or.inl h
          · exact Or.inr fun c hc => hsvmem c (strtok_save_mem _ _ c (h c hc))
        · intro x hx
          rcases hr x hx with h | h
          · exact Or.inl h
          · exact Or.inr fun c hc => hsvmem c (strtok_save_mem _ _ c (h c hc))
        · intro x hx
          rcases hp x hx with h | ⟨h, h', h''⟩
          · obtain ⟨g1, g2, _, g4⟩ := strtok_some _ _ x h
            refine Or.inr ⟨g1, ?_, fun c hc => hsvmem c (g2 c hc)⟩
            rcases g4 with g | g <;> omega
          · exact Or.inr ⟨h, by omega, fun c hc => hsvmem c (strtok_save_mem _ _ c (h'' c hc))⟩
      · -- an argument
        obtain ⟨a, m', he, hb, ha, hr, hp⟩ := ih (strtok s " ".toList).save (args ++ [t]) m hsv
        refine ⟨a, m', he, ?_, ?_, ?_, ?_⟩
        · simp only [List.length_append, List.length_singleton] at hb
          omega
        · intro x hx
          rcases ha x hx with h | h
          · rcases List.mem_append.mp h with h | h
            · exact Or.inl h
            · rw [List.mem_singleton.mp h]
              exact Or.inr htmem
          · exact Or.inr fun c hc => hsvmem c (h c hc)
        · intro x hx
          rcases hr x hx with h | h
          · exact Or.inl h
          · exact Or.inr fun c hc => hsvmem c (h c hc)
        · intro x hx
          rcases hp x hx with h | ⟨h, h', h''⟩
          · exact Or.inl h
          · exact Or.inr ⟨h, by omega, fun c hc => hsvmem c (h'' c hc)⟩

theorem strtok_of_split_nil (s : CStr) (h : spaceSplit s = []) :
    (strtok s " ".toList).token = none := by
  have e := spaceSplit_strtok s
  rw [h] at e
  cases ht : (strtok s " ".toList).token with
  | none => rfl
  | some t => rw [ht] at e; simp at e

theorem strtok_of_split_cons (s t : CStr) (ts : List CStr) (h : spaceSplit s = t :: ts) :
    (strtok s " ".toList).token = some t ∧ spaceSplit (strtok s " ".toList).save = ts := by
  have e := spaceSplit_strtok s
  rw [h] at e
  cases ht : (strtok s " ".toList).token with
  | none => rw [ht] at e; simp at e
  | some t' =>
    rw [ht] at e
    simp only [List.cons.injEq] at e
    exact ⟨by rw [e.1], e.2.symm⟩

/-- The flag `mods[0]` plays no part in the loop. -/
theorem parseLoop_background (fuel : Nat) : ∀ (tok : Option CStr) (sv : CStr)
    (args : List CStr) (m : Mods) (b : CStr),
    parseLoop fuel tok sv args { m with background := b } =
      (parseLoop fuel tok sv args m).map fun r => (r.1, { r.2 with background := b }) := by
  induction fuel with
  | zero => intro tok sv args m b; simp [parseLoop]
  | succ n ih =>
    intro tok sv args m b
    cases tok with
    | none => simp [parseLoop]
    | some t =>
      simp only [parseLoop]
      split_ifs with h1 h2 h3
      · exact ih _ _ _ { m with outputRedirect := "1".toList, redirectTarget := _ } b
      · exact ih _ _ _ { m with inputRedirect := "1".toList, redirectTarget := _ } b
      · exact ih _ _ _ { m with hasPipeline := "1".toList, pipelineTail := _ } b
      · exact ih _ _ _ m b

theorem not_operator (t : CStr) (h : isOperator t = false) :
    t ≠ ">".toList ∧ t ≠ "<".toList ∧ t ≠ "|".toList := by
  simp only [isOperator, Bool.or_eq_false_iff, decide_eq_false_iff_not] at h
  exact ⟨h.1.1, h.1.2, h.2⟩

/-- Tokens that are no operators are stored as arguments, one per round of the loop. -/
theorem parseLoop_skip (pre : List CStr) : ∀ (s : CStr) (rest : List CStr),
    spaceSplit s = pre ++ rest → (∀ t ∈ pre, isOperator t = false) →
    ∃ s', spaceSplit s' = rest ∧ s'.length ≤ s.length ∧ ∀ fuel args m,
      parseLoop (fuel + pre.length) (strtok s " ".toList).token (strtok s " ".toList).save
          args m =
        parseLoop fuel (strtok s' " ".toList).token (strtok s' " ".toList).save
          (args ++ pre) m := by
  induction pre with
  | nil =>
    intro s rest h _
    exact ⟨s, by simpa using h, le_refl _, fun fuel args m => by simp⟩
  | cons t pre ih =>
    intro s rest h hno
    obtain ⟨ht, hsv⟩ := strtok_of_split_cons s t (pre ++ rest) (by simpa using h)
    obtain ⟨s', hs', hl, hrun⟩ := ih (strtok s " ".toList).save rest hsv
      (fun x hx => hno x (List.mem_cons_of_mem _ hx))
    obtain ⟨n1, n2, n3⟩ := not_operator t (hno t (List.mem_cons_self _ _))
    refine ⟨s', hs', le_trans hl (strtok_save_length _ _), fun fuel args m => ?_⟩
    have e : fuel + (t :: pre).length = (fuel + pre.length) + 1 := by
      simp only [List.length_cons]; omega
    rw [e, ht]
    simp only [parseLoop, if_neg n1, if_neg n2, if_neg n3]
    rw [hrun]
    simp

/-- A string without operator tokens: the loop stores its tokens and leaves `mods`. -/
theorem parseLoop_args (s : CStr) (fuel : Nat) (args : List CStr) (m : Mods)
    (hno : ∀ t ∈ spaceSplit s, isOperator t = false) (hf : (spaceSplit s).length < fuel) :
    parseLoop fuel (strtok s " ".toList).token (strtok s " ".toList).save args m =
      some (args ++ spaceSplit s, m) := by
  obtain ⟨s', hs', _, hrun⟩ := parseLoop_skip (spaceSplit s) s [] (by simp) hno
  obtain ⟨k, hk⟩ : ∃ k, fuel = (k + 1) + (spaceSplit s).length := ⟨fuel - (spaceSplit s).length - 1, by omega⟩
  rw [hk, hrun, strtok_of_split_nil s' hs']
  simp [parseLoop]

theorem spaceSplit_length_aux (n : Nat) : ∀ s : CStr, s.length ≤ n →
    (spaceSplit s).length ≤ s.length := by
  induction n with
  | zero =>
    intro s hs
    have : s = [] := List.length_eq_zero.mp (by omega)
    subst this
    decide
  | succ n ih =>
    intro s hs
    rw [spaceSplit_strtok]
    cases ht : (strtok s " ".toList).token with
    | none => simp
    | some t =>
      obtain ⟨htne, _, _, hsz⟩ := strtok_some s _ t ht
      have htpos : 0 < t.length := List.length_pos.mpr htne
      have hlt : (strtok s " ".toList).save.length ≤ n := by
        rcases hsz with h | h
        · omega
        · rw [h.1]; simp only [List.length_nil]; omega
      have := ih _ hlt
      simp only [List.length_cons]
      rcases hsz with h | h
      · omega
      · rw [h.1] at this ⊢
        simp only [List.length_nil] at this ⊢
        have e : spaceSplit [] = [] := by decide
        rw [e]
        simp only [List.length_nil]
        omega

theorem spaceSplit_length (s : CStr) : (spaceSplit s).length ≤ s.length :=
  spaceSplit_length_aux s.length s (le_refl _)

/-! ## `strtok` on a string that continues behind a space -/

theorem dropWhile_append_cons (f : Char → Bool) (l q r : CStr) (x : Char)
    (h : l.dropWhile f = x :: r) :
    (l ++ q).dropWhile f = x :: (r ++ q) ∧ (l ++ q).takeWhile f = l.takeWhile f := by
  induction l with
  | nil => simp at h
  | cons c l ih =>
    by_cases hc : f c = true
    · rw [List.dropWhile_cons_of_pos hc] at h
      obtain ⟨h1, h2⟩ := ih h
      simp only [List.cons_append]
      rw [List.dropWhile_cons_of_pos hc, List.takeWhile_cons_of_pos hc,
        List.takeWhile_cons_of_pos hc, h1, h2]
      exact ⟨rfl, rfl⟩
    · rw [List.dropWhile_cons_of_neg hc] at h
      simp only [List.cons_append]
      rw [List.dropWhile_cons_of_neg hc, List.takeWhile_cons_of_neg hc,
        List.takeWhile_cons_of_neg hc]
      simp only [List.cons.injEq] at h
      rw [h.1, h.2]
      exact ⟨rfl, rfl⟩

theorem getLast?_dropWhile (f : Char → Bool) (l r : CStr) (x : Char)
    (h : l.dropWhile f = x :: r) : (x :: r).getLast? = l.getLast? := by
  have e := List.takeWhile_append_dropWhile f l
  rw [h] at e
  conv_rhs => rw [← e]
  rw [List.getLast?_append_of_ne_nil _ (by simp)]

/-- A string without tokens in front of `| t`: the next token is `|` and the saved
position is `t`. -/
theorem strtok_blank_pipe (p t : CStr) (h : (strtok p " ".toList).token = none) :
    (strtok (p ++ '|' :: ' ' :: t) " ".toList).token = some "|".toList ∧
      (strtok (p ++ '|' :: ' ' :: t) " ".toList).save = t := by
  have hall : ∀ c ∈ p, (" ".toList).contains c = true := by
    rcases strtok_cases p " ".toList with ⟨h0, _⟩ | ⟨c, s1, _, _, he⟩ | ⟨c, s1, e, r, _, _, he⟩
    · exact List.dropWhile_eq_nil_iff.mp h0
    · rw [he] at h; simp at h
    · rw [he] at h; simp at h
  have e1 : (p ++ '|' :: ' ' :: t).dropWhile (fun c => (" ".toList).contains c) =
      '|' :: ' ' :: t := by
    rw [List.dropWhile_append_of_pos hall]
    rfl
  unfold strtok
  rw [e1]
  exact ⟨rfl, rfl⟩

/-- A token of a string that ends in a space is found in the same way when the string
goes on, and the saved position goes on in the same way. -/
theorem strtok_append (p q tok : CStr) (hlast : p.getLast? = some ' ')
    (h : (strtok p " ".toList).token = some tok) :
    (strtok (p ++ q) " ".toList).token = some tok ∧
      (strtok (p ++ q) " ".toList).save = (strtok p " ".toList).save ++ q ∧
      ((strtok p " ".toList).save = [] ∨
        (strtok p " ".toList).save.getLast? = some ' ') := by
  rcases strtok_cases p " ".toList with ⟨_, he⟩ | ⟨c, s1, h1, h2, he⟩ | ⟨c, s1, e, r, h1, h2, he⟩
  · rw [he] at h; simp at h
  · exfalso
    have hl := getLast?_dropWhile _ _ _ _ h1
    rw [hlast] at hl
    have hm := List.mem_of_getLast?_eq_some hl
    have := List.dropWhile_eq_nil_iff.mp h2 ' ' hm
    revert this
    decide
  · rw [he] at h ⊢
    simp only [Option.some.injEq] at h
    obtain ⟨a1, a2⟩ := dropWhile_append_cons _ p q s1 c h1
    have h2' : ((c :: s1) ++ q).dropWhile (fun c => !(" ".toList).contains c) = e :: (r ++ q) ∧
        ((c :: s1) ++ q).takeWhile (fun c => !(" ".toList).contains c) =
          (c :: s1).takeWhile (fun c => !(" ".toList).contains c) :=
      dropWhile_append_cons _ (c :: s1) q r e h2
    have e3 : strtok (p ++ q) " ".toList =
        ⟨some ((c :: s1).takeWhile (fun c => !(" ".toList).contains c)), r ++ q,
          (p ++ q).takeWhile (fun c => (" ".toList).contains c) ++
            (c :: s1).takeWhile (fun c => !(" ".toList).contains c)⟩ := by
      unfold strtok
      rw [a1]
      simp only
      rw [← List.cons_append, h2'.1, h2'.2]
    rw [e3]
    refine ⟨by rw [← h], rfl, ?_⟩
    cases r with
    | nil => exact Or.inl rfl
    | cons y r' =>
      right
      have hl := getLast?_dropWhile _ _ _ _ h1
      have hl2 := getLast?_dropWhile _ _ _ _ h2
      rw [← hlast, ← hl, ← hl2]
      simp [List.getLast?_cons_cons]

theorem getLast?_cons_of_getLast? (a : CStr) (l : List CStr) (x : CStr)
    (h : l.getLast? = some x) : (a :: l).getLast? = some x := by
  cases l with
  | nil => simp at h
  | cons b l => rw [List.getLast?_cons_cons]; exact h

/-- The loop on `p ++ "| " ++ t` goes as on `p`, then meets `|` and stores `t`. -/
theorem parseLoop_pipe (n : Nat) : ∀ (p : CStr), p.length ≤ n →
    (p = [] ∨ p.getLast? = some ' ') →
    "|".toList ∉ spaceSplit p →
    (∀ x, (spaceSplit p).getLast? = some x → isRedirect x = false) →
    ∀ (t : CStr), t ≠ [] → ∀ (fuel : Nat) (args : List CStr) (m : Mods), p.length < fuel →
    ∃ a m', parseLoop fuel (strtok p " ".toList).token (strtok p " ".toList).save args m
        = some (a, m') ∧
      parseLoop (fuel + 1) (strtok (p ++ '|' :: ' ' :: t) " ".toList).token
        (strtok (p ++ '|' :: ' ' :: t) " ".toList).save args m
        = some (a, { m' with hasPipeline := "1".toList, pipelineTail := some t }) := by
  induction n using Nat.strong_induction_on with
  | _ n ih =>
    intro p hpn hp hnopipe hlast t ht fuel args m hfuel
    obtain ⟨k, hk⟩ : ∃ k, fuel = k + 1 := ⟨fuel - 1, by omega⟩
    subst hk
    cases htok : (strtok p " ".toList).token with
    | none =>
      obtain ⟨e1, e2⟩ := strtok_blank_pipe p t htok
      refine ⟨args, m, by simp [parseLoop], ?_⟩
      rw [e1, e2]
      have n1 : "|".toList ≠ ">".toList := by decide
      have n2 : "|".toList ≠ "<".toList := by decide
      simp only [parseLoop, if_neg n1, if_neg n2, if_true]
      rw [strtok_no_delim, if_neg ht]
      simp [strtok_nil, parseLoop]
    | some tok =>
      have hpne : p ≠ [] := by
        intro h
        rw [h, strtok_nil] at htok
        simp at htok
      have hpl : p.getLast? = some ' ' := hp.resolve_left hpne
      have hsplit : spaceSplit p = tok :: spaceSplit (strtok p " ".toList).save := by
        have := spaceSplit_strtok p
        rw [htok] at this
        exact this
      obtain ⟨a1, a2, a3⟩ := strtok_append p ('|' :: ' ' :: t) tok hpl htok
      obtain ⟨_, _, _, hsz⟩ := strtok_some p _ tok htok
      have hsvlen : (strtok p " ".toList).save.length < p.length := by
        have := hsz
        rcases hsz with h | h
        · omega
        · rw [h.1]; exact List.length_pos.mpr hpne
      have hnp : tok ≠ "|".toList := by
        intro h
        apply hnopipe
        rw [hsplit, h]
        exact List.mem_cons_self _ _
      rw [a1, a2]
      by_cases hred : isRedirect tok = true
      · -- a redirect operator: its target is the next token of `p`
        cases hf : (strtok (strtok p " ".toList).save " ".toList).token with
        | none =>
          exfalso
          have e := spaceSplit_strtok (strtok p " ".toList).save
          rw [hf] at e
          rw [e] at hsplit
          have := hlast tok (by rw [hsplit]; rfl)
          rw [this] at hred
          exact Bool.false_ne_true hred
        | some ftok =>
          have hsvne : (strtok p " ".toList).save ≠ [] := by
            intro h
            rw [h, strtok_nil] at hf
            simp at hf
          have hsvl := a3.resolve_left hsvne
          obtain ⟨b1, b2, b3⟩ := strtok_append _ ('|' :: ' ' :: t) ftok hsvl hf
          have hsplit2 : spaceSplit (strtok p " ".toList).save =
              ftok :: spaceSplit (strtok (strtok p " ".toList).save " ".toList).save := by
            have := spaceSplit_strtok (strtok p " ".toList).save
            rw [hf] at this
            exact this
          have hlen2 := strtok_save_length (strtok p " ".toList).save " ".toList
          have hsub : ∀ x ∈ spaceSplit (strtok (strtok p " ".toList).save " ".toList).save,
              x ∈ spaceSplit p := by
            intro x hx
            rw [hsplit, hsplit2]
            exact List.mem_cons_of_mem _ (List.mem_cons_of_mem _ hx)
          have hrec := fun (args : List CStr) (m : Mods) =>
            ih (strtok (strtok p " ".toList).save " ".toList).save.length (by omega)
              (strtok (strtok p " ".toList).save " ".toList).save (le_refl _) b3
              (fun h => hnopipe (hsub _ h))
              (fun x hx => hlast x (by
                rw [hsplit, hsplit2]
                exact getLast?_cons_of_getLast? _ _ _ (getLast?_cons_of_getLast? _ _ _ hx)))
              t ht k args m (by omega)
          simp only [isRedirect, Bool.or_eq_true, decide_eq_true_eq] at hred
          rcases hred with hred | hred
          · subst hred
            simp only [parseLoop, if_true]
            rw [b1, b2, hf]
            obtain ⟨a, m', c1, c2⟩ := hrec args
              { m with outputRedirect := "1".toList, redirectTarget := some ftok }
            exact ⟨a, m', c1, c2⟩
          · subst hred
            have n1 : "<".toList ≠ ">".toList := by decide
            simp only [parseLoop, if_neg n1, if_true]
            rw [b1, b2, hf]
            obtain ⟨a, m', c1, c2⟩ := hrec args
              { m with inputRedirect := "1".toList, redirectTarget := some ftok }
            exact ⟨a, m', c1, c2⟩
      · -- an argument
        simp only [isRedirect, Bool.or_eq_true, decide_eq_true_eq, not_or] at hred
        simp only [parseLoop, if_neg hred.1, if_neg hred.2, if_neg hnp]
        exact ih (strtok p " ".toList).save.length (by omega) (strtok p " ".toList).save
          (le_refl _) a3
          (fun h => hnopipe (by rw [hsplit]; exact List.mem_cons_of_mem _ h))
          (fun x hx => hlast x (by rw [hsplit]; exact getLast?_cons_of_getLast? _ _ _ hx))
          t ht k (args ++ [tok]) m (by omega)

theorem redirectArgs_cons (t : CStr) (ts : List CStr) (h : isRedirect t = false) :
    redirectArgs (t :: ts) = t :: redirectArgs ts := by
  cases ts with
  | nil => simp only [redirectArgs, h, Bool.false_eq_true, if_false]
  | cons f rest => simp only [redirectArgs, h, Bool.false_eq_true, if_false]

theorem redirectMods_cons (t : CStr) (ts : List CStr) (m : Mods)
    (h1 : t ≠ ">".toList) (h2 : t ≠ "<".toList) :
    redirectMods (t :: ts) m = redirectMods ts m := by
  cases ts with
  | nil => simp only [redirectMods, if_neg h1, if_neg h2]
  | cons f rest => simp only [redirectMods, if_neg h1, if_neg h2]

/-- A string without the token `|`: the loop stores the tokens that are neither redirect
operators nor their targets, and sets the modifiers as the redirect operators say. -/
theorem parseLoop_tokens (n : Nat) : ∀ (ts : List CStr), ts.length ≤ n →
    ∀ (s : CStr), spaceSplit s = ts → "|".toList ∉ ts →
    ∀ (fuel : Nat) (args : List CStr) (m : Mods), ts.length < fuel →
    parseLoop fuel (strtok s " ".toList).token (strtok s " ".toList).save args m =
      some (args ++ redirectArgs ts, redirectMods ts m) := by
  induction n using Nat.strong_induction_on with
  | _ n ih =>
    intro ts hn s hs hnp fuel args m hfuel
    obtain ⟨k, hk⟩ : ∃ k, fuel = k + 1 := ⟨fuel - 1, by omega⟩
    subst hk
    cases ts with
    | nil =>
      rw [strtok_of_split_nil s hs]
      simp [parseLoop, redirectArgs, redirectMods]
    | cons t ts1 =>
      obtain ⟨ht, hsv⟩ := strtok_of_split_cons s t ts1 hs
      have hne3 : t ≠ "|".toList := fun h => hnp (by rw [h]; exact List.mem_cons_self _ _)
      have hnp1 : "|".toList ∉ ts1 := fun h => hnp (List.mem_cons_of_mem _ h)
      simp only [List.length_cons] at hn hfuel
      rw [ht]
      by_cases h1 : t = ">".toList
      · subst h1
        simp only [parseLoop, if_true]
        cases ts1 with
        | nil =>
          have hf := strtok_of_split_nil _ hsv
          rw [hf, strtok_none _ _ hf, strtok_nil]
          obtain ⟨j, hj⟩ : ∃ j, k = j + 1 := ⟨k - 1, by simp only [List.length_nil] at hfuel; omega⟩
          subst hj
          simp [parseLoop, redirectArgs, redirectMods, isRedirect]
        | cons f rest =>
          obtain ⟨hf, hsv2⟩ := strtok_of_split_cons _ f rest hsv
          simp only [List.length_cons] at hn hfuel
          rw [hf, ih rest.length (by omega) rest (le_refl _) _ hsv2
            (fun h => hnp1 (List.mem_cons_of_mem _ h)) k args _ (by omega)]
          simp [redirectArgs, redirectMods, isRedirect]
      · by_cases h2 : t = "<".toList
        · subst h2
          have hne1 : "<".toList ≠ ">".toList := by decide
          simp only [parseLoop, if_neg hne1, if_true]
          cases ts1 with
          | nil =>
            have hf := strtok_of_split_nil _ hsv
            rw [hf, strtok_none _ _ hf, strtok_nil]
            obtain ⟨j, hj⟩ : ∃ j, k = j + 1 :=
              ⟨k - 1, by simp only [List.length_nil] at hfuel; omega⟩
            subst hj
            simp [parseLoop, redirectArgs, redirectMods, isRedirect, hne1]
          | cons f rest =>
            obtain ⟨hf, hsv2⟩ := strtok_of_split_cons _ f rest hsv
            simp only [List.length_cons] at hn hfuel
            rw [hf, ih rest.length (by omega) rest (le_refl _) _ hsv2
              (fun h => hnp1 (List.mem_cons_of_mem _ h)) k args _ (by omega)]
            simp [redirectArgs, redirectMods, isRedirect, hne1]
        · simp only [parseLoop, if_neg h1, if_neg h2, if_neg hne3]
          rw [ih ts1.length (by omega) ts1 (le_refl _) _ hsv hnp1 k _ m (by omega),
            redirectArgs_cons t ts1
              (by simp only [isRedirect, Bool.or_eq_false_iff, decide_eq_false_iff_not]
                  exact ⟨h1, h2⟩),
            redirectMods_cons t ts1 m h1 h2]
          simp

/-! ## The claims about `parseLine` -/

theorem tokenize_eq (line : CStr) (mods : Mods) :
    tokenize line mods =
      (parseLoop (line.length + 1) (strtok line " ".toList).token
        (strtok line " ".toList).save [] mods).map
        fun r => ⟨(strtok line " ".toList).buf, r.1, r.2⟩ := rfl

theorem tokenize_plain (line : CStr) (mods : Mods)
    (hop : ∀ t ∈ spaceSplit line, isOperator t = false) :
    tokenize line mods = some ⟨(strtok line " ".toList).buf, spaceSplit line, mods⟩ := by
  rw [tokenize_eq]
  rw [parseLoop_args line _ [] mods hop (by have := spaceSplit_length line; omega)]
  simp

theorem tokenize_bound (line : CStr) (mods : Mods) :
    ∃ r, tokenize line mods = some r ∧ r.args.length ≤ (line.length + 1) / 2 ∧
      (∀ x ∈ r.args, ∀ c ∈ x, c ∈ line) ∧
      (∀ x, r.mods.redirectTarget = some x →
        mods.redirectTarget = some x ∨ ∀ c ∈ x, c ∈ line) ∧
      (∀ x, r.mods.pipelineTail = some x →
        mods.pipelineTail = some x ∨ (x ≠ [] ∧ x.length ≤ line.length ∧ ∀ c ∈ x, c ∈ line)) := by
  obtain ⟨a, m', he, hb, ha, hr, hp⟩ := parseLoop_spec (line.length + 1) line [] mods (by omega)
  refine ⟨⟨(strtok line " ".toList).buf, a, m'⟩, ?_, ?_, ?_, hr, hp⟩
  · rw [tokenize_eq]
    rw [he]
    rfl
  · simpa using hb
  · intro x hx
    rcases ha x hx with h | h
    · simp at h
    · exact h

theorem tokenize_background (line : CStr) (mods : Mods) (b : CStr) :
    tokenize line { mods with background := b } =
      (tokenize line mods).map fun r => { r with mods := { r.mods with background := b } } := by
  rw [tokenize_eq]
  rw [tokenize_eq, parseLoop_background]
  cases parseLoop (line.length + 1) (strtok line " ".toList).token
    (strtok line " ".toList).save [] mods <;> rfl

/-- C1 (as amended): for every non-empty line of at most 80 characters that has no
token equal to `>`, `<` or `|` and does not end in `&`, `parseLine` produces an
argument vector equal to the tokens of the line separated by the space character
(maximal runs of characters other than the space), in their order, followed by the
`NULL` sentinel, within the 41 slots of the array, and leaves `mods` as it found it:
with the initializer of `main` all four flags stay `"0"`, with no redirect target and
no pipeline tail. -/
theorem parseLine_plain (line : CStr) (mods : Mods) (hne : line ≠ [])
    (hlen : line.length ≤ MAX_LENGTH)
    (hop : ∀ t ∈ spaceSplit line, isOperator t = false)
    (hamp : line.getLast? ≠ some '&') :
    ∃ r, parseLine line mods = some r ∧
      r.argv = (spaceSplit line).map some ++ [none] ∧
      r.argv.length ≤ MAX_LENGTH / 2 + 1 ∧
      r.mods = mods := by
  refine ⟨⟨(strtok line " ".toList).buf, spaceSplit line, mods⟩, ?_, rfl, ?_, rfl⟩
  · unfold parseLine
    rw [if_neg hne, if_neg hamp]
    exact tokenize_plain line mods hop
  · obtain ⟨r, hr, hb, _⟩ := tokenize_bound line mods
    rw [tokenize_plain line mods hop] at hr
    simp only [Option.some.injEq] at hr
    subst hr
    simp only [ParseResult.argv, List.length_append, List.length_map, List.length_singleton]
    simp only [MAX_LENGTH] at hlen ⊢
    simp only at hb
    omega

/-- C1, witness: `ls -l`. -/
theorem parseLine_plain_witness :
    ∃ r, parseLine "ls -l".toList initMods = some r ∧
      r.argv = (spaceSplit "ls -l".toList).map some ++ [none] ∧
      r.argv.length ≤ MAX_LENGTH / 2 + 1 ∧
      r.mods = initMods :=
  parseLine_plain "ls -l".toList initMods (by decide) (by decide) (by decide) (by decide)

/-- C1 (as stated) fails on a line with a tab: `a<TAB>b` has the two whitespace-separated
tokens `a` and `b`, none of them an operator, and `parseLine` stores the single
argument `a<TAB>b`. -/
theorem parseLine_plain_counterexample :
    "a\tb".toList ≠ [] ∧ ("a\tb".toList).length ≤ MAX_LENGTH ∧
    (∀ t ∈ whitespaceSplit "a\tb".toList, isOperator t = false) ∧
    ("a\tb".toList).getLast? ≠ some '&' ∧
    ¬ ∃ r, parseLine "a\tb".toList initMods = some r ∧
      r.argv = (whitespaceSplit "a\tb".toList).map some ++ [none] := by
  refine ⟨by decide, by decide, by decide, by decide, ?_⟩
  rintro ⟨r, hr, hargv⟩
  have e : parseLine "a\tb".toList initMods =
      some ⟨"a\tb".toList, ["a\tb".toList], initMods⟩ := by decide
  rw [e] at hr
  simp only [Option.some.injEq] at hr
  subst hr
  revert hargv
  decide

theorem spaceSplit_nil : spaceSplit [] = [] := by decide

/-- C3: for every line whose space-separated tokens are `pre ++ [op, f] ++ post`, with
`op` one of `>` and `<`, `f` any token, no operator among `pre` and `post`, and which
does not end in `&`: `parseLine` sets the flag of `op` (`mods[1]` for `>`, `mods[2]`
for `<`) and stores `f` whole as the redirect target, leaves the other flags and the
pipeline tail as they were (unset with the initializer of `main`), and the argument
vector is `pre ++ post` followed by the sentinel. -/
theorem parseLine_redirect (line : CStr) (mods : Mods) (pre post : List CStr) (op f : CStr)
    (hsplit : spaceSplit line = pre ++ [op, f] ++ post)
    (hop : op = ">".toList ∨ op = "<".toList)
    (hpre : ∀ t ∈ pre, isOperator t = false)
    (hpost : ∀ t ∈ post, isOperator t = false)
    (hamp : line.getLast? ≠ some '&') :
    ∃ r, parseLine line mods = some r ∧
      r.argv = (pre ++ post).map some ++ [none] ∧
      r.mods = (if op = ">".toList
        then { mods with outputRedirect := "1".toList, redirectTarget := some f }
        else { mods with inputRedirect := "1".toList, redirectTarget := some f }) := by
  have hne : line ≠ [] := by
    intro h
    rw [h, spaceSplit_nil] at hsplit
    simp at hsplit
  have hlen := spaceSplit_length line
  rw [hsplit] at hlen
  simp only [List.length_append, List.length_cons, List.length_nil] at hlen
  obtain ⟨s', hs', _, hrun⟩ := parseLoop_skip pre line ([op, f] ++ post)
    (by rw [hsplit, List.append_assoc]) hpre
  obtain ⟨h1, hsv1⟩ := strtok_of_split_cons s' op (f :: post) (by simpa using hs')
  obtain ⟨h2, hsv2⟩ := strtok_of_split_cons _ f post hsv1
  obtain ⟨k, hk⟩ : ∃ k, line.length + 1 = (k + 1) + pre.length :=
    ⟨line.length - pre.length, by omega⟩
  have hpost' : ∀ t ∈ spaceSplit (strtok (strtok s' " ".toList).save " ".toList).save,
      isOperator t = false := by rw [hsv2]; exact hpost
  have hfuel : (spaceSplit (strtok (strtok s' " ".toList).save " ".toList).save).length < k := by
    rw [hsv2]; omega
  unfold parseLine
  rw [if_neg hne, if_neg hamp, tokenize_eq, hk, hrun, h1]
  rcases hop with hop | hop
  · subst hop
    simp only [parseLoop, if_true, h2]
    rw [parseLoop_args _ k _ _ hpost' hfuel, hsv2]
    exact ⟨_, rfl, by simp [ParseResult.argv], by simp⟩
  · subst hop
    have hne' : "<".toList ≠ ">".toList := by decide
    simp only [parseLoop, if_neg hne', if_true, h2]
    rw [parseLoop_args _ k _ _ hpost' hfuel, hsv2]
    exact ⟨_, rfl, by simp [ParseResult.argv], by simp [if_neg hne']⟩

/-- C3, witness: `ls > out.txt` gives the arguments `ls`, the flag of `>` and the
target `out.txt`. -/
theorem parseLine_redirect_witness :
    ∃ r, parseLine "ls > out.txt".toList initMods = some r ∧
      r.argv = (["ls".toList] ++ []).map some ++ [none] ∧
      r.mods = (if ">".toList = ">".toList
        then { initMods with outputRedirect := "1".toList,
                             redirectTarget := some "out.txt".toList }
        else { initMods with inputRedirect := "1".toList,
                             redirectTarget := some "out.txt".toList }) :=
  parseLine_redirect "ls > out.txt".toList initMods ["ls".toList] [] ">".toList
    "out.txt".toList (by decide) (Or.inl rfl) (by decide) (by decide) (by decide)

/-- C4 (as amended): for every line `p ++ "| " ++ t`, also when followed by a final `&`,
where the text `p` before the `|` is empty or ends in a space, has no token `|` and
does not end with a token `>` or `<`, and `t` is not empty (and does not end in `&`
when no final `&` follows): `parseLine` sets `mods[3]`, stores `t` verbatim and unsplit
as the pipeline tail, its arguments are the tokens of `p` that are neither `>` or `<`
nor the token behind one of them, and the redirect flags and the redirect target are
those that the redirect operators of `p` set; that is what the tokenization of `p`
alone produces (the tokens of `p` and the unchanged `mods` when `p` has no operator
token), so nothing behind the `|` reaches them; a final `&` sets `mods[0]` and is not
part of the tail. -/
theorem parseLine_pipeline (p t : CStr) (mods : Mods)
    (hp : p = [] ∨ p.getLast? = some ' ')
    (hnopipe : "|".toList ∉ spaceSplit p)
    (hlast : ∀ x, (spaceSplit p).getLast? = some x → isRedirect x = false)
    (ht : t ≠ []) :
    tokenize p mods =
      some ⟨(strtok p " ".toList).buf, redirectArgs (spaceSplit p),
        redirectMods (spaceSplit p) mods⟩ ∧
    ((∀ x ∈ spaceSplit p, isOperator x = false) →
      redirectArgs (spaceSplit p) = spaceSplit p ∧ redirectMods (spaceSplit p) mods = mods) ∧
    (t.getLast? ≠ some '&' →
      ∃ r1, parseLine (p ++ '|' :: ' ' :: t) mods = some r1 ∧
        r1.argv = (redirectArgs (spaceSplit p)).map some ++ [none] ∧
        r1.mods = { redirectMods (spaceSplit p) mods with
          hasPipeline := "1".toList, pipelineTail := some t }) ∧
    (∃ r2, parseLine ((p ++ '|' :: ' ' :: t) ++ ['&']) mods = some r2 ∧
        r2.argv = (redirectArgs (spaceSplit p)).map some ++ [none] ∧
        r2.mods = { redirectMods (spaceSplit p) mods with
          background := "1".toList, hasPipeline := "1".toList, pipelineTail := some t }) := by
  obtain ⟨a, m', c1, c2⟩ := parseLoop_pipe p.length p (le_refl _) hp hnopipe hlast t ht
    (p.length + 1) [] mods (by omega)
  have hslen := spaceSplit_length p
  have c0 := parseLoop_tokens (spaceSplit p).length (spaceSplit p) (le_refl _) p rfl hnopipe
    (p.length + 1) [] mods (by omega)
  rw [c1] at c0
  simp only [Option.some.injEq, Prod.mk.injEq, List.nil_append] at c0
  obtain ⟨ha, hm⟩ := c0
  subst ha
  subst hm
  have hlen : (p ++ '|' :: ' ' :: t).length + 1 = (p.length + 1 + 1) + (t.length + 1) := by
    simp only [List.length_append, List.length_cons]
    omega
  have hmain : tokenize (p ++ '|' :: ' ' :: t) mods =
      some ⟨(strtok (p ++ '|' :: ' ' :: t) " ".toList).buf, redirectArgs (spaceSplit p),
        { redirectMods (spaceSplit p) mods with
          hasPipeline := "1".toList, pipelineTail := some t }⟩ := by
    rw [tokenize_eq, hlen, parseLoop_mono _ _ _ _ _ _ c2]
    rfl
  refine ⟨?_, ?_, ?_, ?_⟩
  · rw [tokenize_eq, c1]
    rfl
  · intro hop
    have := parseLoop_args p (p.length + 1) [] mods hop (by omega)
    rw [c1] at this
    simp only [Option.some.injEq, Prod.mk.injEq, List.nil_append] at this
    exact this
  · intro hamp
    refine ⟨⟨(strtok (p ++ '|' :: ' ' :: t) " ".toList).buf, redirectArgs (spaceSplit p),
        { redirectMods (spaceSplit p) mods with
          hasPipeline := "1".toList, pipelineTail := some t }⟩, ?_, rfl, rfl⟩
    have hl : (p ++ '|' :: ' ' :: t).getLast? ≠ some '&' := by
      rw [List.getLast?_append_of_ne_nil _ (by simp), List.getLast?_cons_cons]
      cases t with
      | nil => exact absurd rfl ht
      | cons c t => rw [List.getLast?_cons_cons]; exact hamp
    unfold parseLine
    rw [if_neg (by simp), if_neg hl, hmain]
  · refine ⟨⟨(strtok (p ++ '|' :: ' ' :: t) " ".toList).buf, redirectArgs (spaceSplit p),
        { redirectMods (spaceSplit p) mods with
          background := "1".toList, hasPipeline := "1".toList,
          pipelineTail := some t }⟩, ?_, rfl, rfl⟩
    unfold parseLine
    rw [if_neg (by simp), if_pos (List.getLast?_concat _)]
    simp only [List.dropLast_concat]
    rw [tokenize_background, hmain]
    rfl

/-- C4, witness: `ls | wc -l` gives the argument `ls` and the pipeline tail `wc -l`;
`ls > out | wc -l` gives the argument `ls`, the flag of `>`, the target `out` and the
same tail. -/
theorem parseLine_pipeline_witness :
    redirectArgs (spaceSplit "ls ".toList) = ["ls".toList] ∧
    redirectMods (spaceSplit "ls ".toList) initMods = initMods ∧
    redirectArgs (spaceSplit "ls > out ".toList) = ["ls".toList] ∧
    redirectMods (spaceSplit "ls > out ".toList) initMods =
      { initMods with outputRedirect := "1".toList, redirectTarget := some "out".toList } ∧
    (∃ r1, parseLine ("ls ".toList ++ '|' :: ' ' :: "wc -l".toList) initMods = some r1 ∧
      r1.argv = (redirectArgs (spaceSplit "ls ".toList)).map some ++ [none] ∧
      r1.mods = { redirectMods (spaceSplit "ls ".toList) initMods with
        hasPipeline := "1".toList, pipelineTail := some "wc -l".toList }) ∧
    (∃ r1, parseLine ("ls > out ".toList ++ '|' :: ' ' :: "wc -l".toList) initMods = some r1 ∧
      r1.argv = (redirectArgs (spaceSplit "ls > out ".toList)).map some ++ [none] ∧
      r1.mods = { redirectMods (spaceSplit "ls > out ".toList) initMods with
        hasPipeline := "1".toList, pipelineTail := some "wc -l".toList }) :=
  ⟨by decide, by decide, by decide, by decide,
    (parseLine_pipeline "ls ".toList "wc -l".toList initMods (by decide) (by decide)
      (by decide) (by decide)).2.2.1 (by decide),
    (parseLine_pipeline "ls > out ".toList "wc -l".toList initMods (by decide) (by decide)
      (by decide) (by decide)).2.2.1 (by decide)⟩

/-- C4 (as stated) fails in three ways. On `ls |` the line has the token `|` and no
pipeline tail is stored (`mods[5]` stays `NULL`). On `ls > | wc` the token `|` is taken
as the redirect target, `mods[3]` stays `"0"` and `wc` becomes an argument. On
`ls > out | wc` the tokens before the `|` that are no operators are `ls` and `out`,
and the argument vector is `ls` alone. -/
theorem parseLine_pipeline_counterexample :
    ("|".toList ∈ spaceSplit "ls |".toList ∧
      parseLine "ls |".toList initMods =
        some ⟨"ls".toList, ["ls".toList],
          { initMods with hasPipeline := "1".toList, pipelineTail := none }⟩) ∧
    ("|".toList ∈ spaceSplit "ls > | wc".toList ∧
      parseLine "ls > | wc".toList initMods =
        some ⟨"ls".toList, ["ls".toList, "wc".toList],
          { initMods with outputRedirect := "1".toList, hasPipeline := "0".toList,
                          redirectTarget := some "|".toList, pipelineTail := none }⟩) ∧
    ("|".toList ∈ spaceSplit "ls > out | wc".toList ∧
      ((spaceSplit "ls > out | wc".toList).takeWhile (fun x => x ≠ "|".toList)).filter
        (fun x => !isOperator x) = ["ls".toList, "out".toList] ∧
      parseLine "ls > out | wc".toList initMods =
        some ⟨"ls".toList, ["ls".toList],
          { initMods with outputRedirect := "1".toList, hasPipeline := "1".toList,
                          redirectTarget := some "out".toList,
                          pipelineTail := some "wc".toList }⟩) := by
  decide

theorem parseLine_some (line : CStr) (mods : Mods) (hne : line ≠ []) :
    ∃ r, parseLine line mods = some r := by
  unfold parseLine
  rw [if_neg hne]
  split_ifs with h
  · obtain ⟨r, hr, _⟩ := tokenize_bound line.dropLast { mods with background := "1".toList }
    exact ⟨r, hr⟩
  · obtain ⟨r, hr, _⟩ := tokenize_bound line mods
    exact ⟨r, hr⟩

/-- C5 (as amended): for every line `body ++ "&"` of at least two characters (`body` is
not empty) whose only `&` is the last character, `parseLine` sets `mods[0]` to `"1"`,
and the arguments, the other three flags, the redirect target and the pipeline tail it
produces are exactly those it produces for `body`, the same line with the final `&`
removed (which are those of the tokenization, lines 32-49, of `body`); no argument
contains `&`, and a redirect target or pipeline tail that contains `&` was in `mods`
before the call. -/
theorem parseLine_ampersand (body : CStr) (mods : Mods) (hne : body ≠ [])
    (hamp : '&' ∉ body) :
    ∃ r, parseLine body mods = some r ∧
      tokenize body mods = some r ∧
      parseLine (body ++ ['&']) mods =
        some { r with mods := { r.mods with background := "1".toList } } ∧
      (∀ x ∈ r.args, '&' ∉ x) ∧
      (∀ x, r.mods.redirectTarget = some x → '&' ∈ x → mods.redirectTarget = some x) ∧
      (∀ x, r.mods.pipelineTail = some x → '&' ∈ x → mods.pipelineTail = some x) := by
  obtain ⟨r, hr, _, ha, ht, hp⟩ := tokenize_bound body mods
  refine ⟨r, ?_, hr, ?_, ?_, ?_, ?_⟩
  · have hlast : body.getLast? ≠ some '&' := by
      intro h
      exact hamp (List.mem_of_getLast?_eq_some h)
    unfold parseLine
    rw [if_neg hne, if_neg hlast, hr]
  · unfold parseLine
    rw [if_neg (by simp), if_pos (by simp)]
    simp only [List.dropLast_concat]
    rw [tokenize_background, hr]
    rfl
  · intro x hx hc
    exact hamp (ha x hx _ hc)
  · intro x hx hc
    rcases ht x hx with h | h
    · exact h
    · exact absurd (h _ hc) hamp
  · intro x hx hc
    rcases hp x hx with h | h
    · exact h
    · exact absurd (h.2.2 _ hc) hamp

/-- C5, witness: `ls -l &` gives the arguments `ls`, `-l` and the background flag, and
`ls -l ` gives the same arguments without the flag. -/
theorem parseLine_ampersand_witness :
    parseLine ("ls -l ".toList ++ ['&']) initMods =
      some ⟨"ls".toList, ["ls".toList, "-l".toList],
        { initMods with background := "1".toList }⟩ ∧
    ∃ r, parseLine "ls -l ".toList initMods = some r ∧
      tokenize "ls -l ".toList initMods = some r ∧
      parseLine ("ls -l ".toList ++ ['&']) initMods =
        some { r with mods := { r.mods with background := "1".toList } } ∧
      (∀ x ∈ r.args, '&' ∉ x) ∧
      (∀ x, r.mods.redirectTarget = some x → '&' ∈ x → initMods.redirectTarget = some x) ∧
      (∀ x, r.mods.pipelineTail = some x → '&' ∈ x → initMods.pipelineTail = some x) :=
  ⟨by decide, parseLine_ampersand "ls -l ".toList initMods (by decide) (by decide)⟩

/-- C5 (as stated) fails on the one-character line `&`: its last character is `&` and it
has no other `&`; `parseLine` sets the background flag and stores no argument, and the
same line with the `&` removed is the empty string, for which `parseLine` produces
nothing (the test of line 28 reads `line[-1]`), so there is no result to agree with. -/
theorem parseLine_ampersand_counterexample :
    '&' ∉ ([] : CStr) ∧ ([] : CStr) ++ ['&'] = "&".toList ∧
    parseLine "&".toList initMods =
      some ⟨[], [], { initMods with background := "1".toList }⟩ ∧
    parseLine [] initMods = none ∧
    ¬ ∃ r, parseLine [] initMods = some r ∧
      parseLine "&".toList initMods =
        some { r with mods := { r.mods with background := "1".toList } } := by
  refine ⟨by decide, by decide, by decide, by decide, ?_⟩
  rintro ⟨r, hr, _⟩
  have e : parseLine [] initMods = none := by decide
  rw [e] at hr
  exact Option.noConfusion hr

/-- C10: for every non-empty line of at most 80 characters (`MAX_LENGTH`), `parseLine`
returns and stores at most 40 arguments, so the slots of the argument array it has
written, the one of the `NULL` sentinel included, are at most `MAX_LENGTH / 2 + 1 = 41`
(indices at most 40); and when the call has stored a pipeline tail, `parseLine` on that
tail (with any contents of the second modifier array) returns and stays within the same
bound. -/
theorem parseLine_args_bound (line : CStr) (hne : line ≠ []) (hlen : line.length ≤ MAX_LENGTH) :
    ∃ r, parseLine line initMods = some r ∧
      r.args.length ≤ 40 ∧ r.argv.length ≤ MAX_LENGTH / 2 + 1 ∧
      ∀ tail, r.mods.pipelineTail = some tail → ∀ mods2, ∃ r2,
        parseLine tail mods2 = some r2 ∧
        r2.args.length ≤ 40 ∧ r2.argv.length ≤ MAX_LENGTH / 2 + 1 := by
  have key : ∀ (l : CStr) (m : Mods), l ≠ [] → l.length ≤ 80 →
      ∃ r, parseLine l m = some r ∧ r.args.length ≤ 40 ∧
        ∀ x, r.mods.pipelineTail = some x →
          m.pipelineTail = some x ∨ (x ≠ [] ∧ x.length ≤ 80) := by
    intro l m hl hl80
    unfold parseLine
    rw [if_neg hl]
    split_ifs with h
    · obtain ⟨r, hr, hb, _, _, hp⟩ :=
        tokenize_bound l.dropLast { m with background := "1".toList }
      have hd : l.dropLast.length ≤ 80 := by
        rw [List.length_dropLast]; omega
      refine ⟨r, hr, by omega, fun x hx => ?_⟩
      rcases hp x hx with h | h
      · exact Or.inl h
      · exact Or.inr ⟨h.1, by omega⟩
    · obtain ⟨r, hr, hb, _, _, hp⟩ := tokenize_bound l m
      refine ⟨r, hr, by omega, fun x hx => ?_⟩
      rcases hp x hx with h | h
      · exact Or.inl h
      · exact Or.inr ⟨h.1, by omega⟩
  have hargv : ∀ r : ParseResult, r.args.length ≤ 40 → r.argv.length ≤ MAX_LENGTH / 2 + 1 := by
    intro r h
    simp only [ParseResult.argv, List.length_append, List.length_map, List.length_singleton,
      MAX_LENGTH]
    omega
  obtain ⟨r, hr, hb, hp⟩ := key line initMods hne hlen
  refine ⟨r, hr, hb, hargv r hb, fun tail ht mods2 => ?_⟩
  rcases hp tail ht with h | h
  · simp [initMods] at h
  · obtain ⟨r2, hr2, hb2, _⟩ := key tail mods2 h.1 h.2
    exact ⟨r2, hr2, hb2, hargv r2 hb2⟩

/-- C10, witness: forty one-character arguments, each followed by a space, fill a line
of 80 characters and take the slots 0 to 39, the sentinel slot 40. -/
theorem parseLine_args_bound_witness :
    ((List.replicate 40 "a ".toList).flatten).length = 80 ∧
    (∃ r, parseLine (List.replicate 40 "a ".toList).flatten initMods = some r ∧
      r.args.length = 40) ∧
    ∃ r, parseLine (List.replicate 40 "a ".toList).flatten initMods = some r ∧
      r.args.length ≤ 40 ∧ r.argv.length ≤ MAX_LENGTH / 2 + 1 ∧
      ∀ tail, r.mods.pipelineTail = some tail → ∀ mods2, ∃ r2,
        parseLine tail mods2 = some r2 ∧
        r2.args.length ≤ 40 ∧ r2.argv.length ≤ MAX_LENGTH / 2 + 1 :=
  ⟨by decide,
    ⟨⟨"a".toList, List.replicate 40 "a".toList, initMods⟩, by decide, by decide⟩,
    parseLine_args_bound (List.replicate 40 "a ".toList).flatten (by decide) (by decide)⟩

/-! ## The claims about the loop of `main` -/

/-- C2: started with an empty history buffer, a round that reads `!!` prints
`Error: No commands in history`, hands nothing to `parseLine`, makes no system call and
leaves the buffer empty. A round that reads a line `L` (not empty, not `exit`, not
`!!`, at most 80 characters) calls `parseLine` on `L`, goes on with what that call
produces (lines 82-158) and leaves `L` in the history buffer, whatever `parseLine` does
to its own copy; after any number of `!!` rounds that follow it the buffer still holds
`L`, and the next `!!` round calls `parseLine` on exactly `L`, goes on with what that
call produces, as a round that reads `L` itself does, and leaves the buffer equal to
`L`. -/
theorem history_repeat (fuel fuel2 : Nat) (env env2 : Env) (history input bang : CStr)
    (rounds : List (Nat × CStr × Env))
    (hne : input.takeWhile (fun c => c ≠ '\n') ≠ [])
    (hexit : input.takeWhile (fun c => c ≠ '\n') ≠ "exit".toList)
    (hbang : input.takeWhile (fun c => c ≠ '\n') ≠ "!!".toList)
    (hlen : (input.takeWhile (fun c => c ≠ '\n')).length ≤ MAX_LENGTH)
    (hb : bang.takeWhile (fun c => c ≠ '\n') = "!!".toList)
    (hrounds : ∀ b ∈ rounds, b.2.1.takeWhile (fun c => c ≠ '\n') = "!!".toList) :
    iteration fuel [] bang env =
      ⟨[Event.printf "osh>".toList, Event.printf "Error: No commands in history\n".toList],
        [], none, env.children, Control.next⟩ ∧
    (iteration fuel history input env).parsed = some (input.takeWhile (fun c => c ≠ '\n')) ∧
    (iteration fuel history input env).history = input.takeWhile (fun c => c ≠ '\n') ∧
    historyAfter (iteration fuel history input env).history rounds =
      input.takeWhile (fun c => c ≠ '\n') ∧
    (iteration fuel2 (historyAfter (iteration fuel history input env).history rounds) bang
      env2).parsed = some (input.takeWhile (fun c => c ≠ '\n')) ∧
    (iteration fuel2 (historyAfter (iteration fuel history input env).history rounds) bang
      env2).history = input.takeWhile (fun c => c ≠ '\n') ∧
    iteration fuel2 (historyAfter (iteration fuel history input env).history rounds) bang env2 =
      iteration fuel2 history input env2 ∧
    ∃ r, parseLine (input.takeWhile (fun c => c ≠ '\n')) initMods = some r ∧
      iteration fuel history input env =
        ⟨Event.printf "osh>".toList :: (execute fuel r env).1,
          input.takeWhile (fun c => c ≠ '\n'), some (input.takeWhile (fun c => c ≠ '\n')),
          (execute fuel r env).2.1, (execute fuel r env).2.2⟩ ∧
      iteration fuel2 (historyAfter (iteration fuel history input env).history rounds) bang
          env2 =
        ⟨Event.printf "osh>".toList :: (execute fuel2 r env2).1,
          input.takeWhile (fun c => c ≠ '\n'), some (input.takeWhile (fun c => c ≠ '\n')),
          (execute fuel2 r env2).2.1, (execute fuel2 r env2).2.2⟩ := by
  have hcopy : strncpy (input.takeWhile (fun c => c ≠ '\n')) (MAX_LENGTH + 1) =
      input.takeWhile (fun c => c ≠ '\n') := by
    unfold strncpy
    exact List.take_of_length_le (by omega)
  have n1 : "!!".toList ≠ "exit".toList := by decide
  have n2 : "!!".toList ≠ ([] : CStr) := by decide
  obtain ⟨r, hr⟩ := parseLine_some (input.takeWhile (fun c => c ≠ '\n')) initMods hne
  -- a round that reads the line itself
  have hfresh : ∀ (fuel : Nat) (h : CStr) (env : Env), iteration fuel h input env =
      ⟨Event.printf "osh>".toList :: (execute fuel r env).1,
        input.takeWhile (fun c => c ≠ '\n'), some (input.takeWhile (fun c => c ≠ '\n')),
        (execute fuel r env).2.1, (execute fuel r env).2.2⟩ := by
    intro fuel h env
    unfold iteration
    simp only [if_neg hexit, if_neg hne, hbang, false_and, if_false, decide_False,
      Bool.false_eq_true, hcopy, hr]
  -- a round that reads `!!` with the line in the buffer
  have hagain : ∀ (fuel : Nat) (bang : CStr) (env : Env),
      bang.takeWhile (fun c => c ≠ '\n') = "!!".toList →
      iteration fuel (input.takeWhile (fun c => c ≠ '\n')) bang env =
        ⟨Event.printf "osh>".toList :: (execute fuel r env).1,
          input.takeWhile (fun c => c ≠ '\n'), some (input.takeWhile (fun c => c ≠ '\n')),
          (execute fuel r env).2.1, (execute fuel r env).2.2⟩ := by
    intro fuel bang env hb
    unfold iteration
    simp only [hb, if_neg n1, if_neg n2, hne, and_false, if_false, true_and, ne_eq,
      not_false_eq_true, decide_True, if_true, hcopy, hr]
  have hh : (iteration fuel history input env).history =
      input.takeWhile (fun c => c ≠ '\n') := by rw [hfresh]
  -- any number of such rounds
  have hmany : historyAfter (input.takeWhile (fun c => c ≠ '\n')) rounds =
      input.takeWhile (fun c => c ≠ '\n') := by
    unfold historyAfter
    induction rounds with
    | nil => rfl
    | cons b rest ih =>
      rw [List.foldl_cons, hagain b.1 b.2.1 b.2.2 (hrounds b (List.mem_cons_self _ _))]
      exact ih fun x hx => hrounds x (List.mem_cons_of_mem _ hx)
  refine ⟨?_, ?_, hh, ?_, ?_, ?_, ?_, r, hr, hfresh fuel history env, ?_⟩
  · unfold iteration
    simp only [hb, if_neg n1, if_neg n2, and_self, if_true]
  · rw [hfresh]
  · rw [hh]
    exact hmany
  · rw [hh, hmany, hagain fuel2 bang env2 hb]
  · rw [hh, hmany, hagain fuel2 bang env2 hb]
  · rw [hh, hmany, hagain fuel2 bang env2 hb, hfresh]
  · rw [hh, hmany]
    exact hagain fuel2 bang env2 hb

/-- C2, witness: `ls -l`, then `!!` twice; the second `!!` round does what the round
that read `ls -l` did. -/
theorem history_repeat_witness :
    iteration 5 [] "!!\n".toList parentEnv =
      ⟨[Event.printf "osh>".toList, Event.printf "Error: No commands in history\n".toList],
        [], none, [], Control.next⟩ ∧
    (iteration 5 [] "ls -l\n".toList parentEnv).parsed = some "ls -l".toList ∧
    (iteration 5 [] "ls -l\n".toList parentEnv).history = "ls -l".toList ∧
    historyAfter (iteration 5 [] "ls -l\n".toList parentEnv).history
      [(5, "!!\n".toList, parentEnv)] = "ls -l".toList ∧
    (iteration 5 (historyAfter (iteration 5 [] "ls -l\n".toList parentEnv).history
      [(5, "!!\n".toList, parentEnv)]) "!!\n".toList parentEnv).parsed =
        some "ls -l".toList ∧
    iteration 5 (historyAfter (iteration 5 [] "ls -l\n".toList parentEnv).history
      [(5, "!!\n".toList, parentEnv)]) "!!\n".toList parentEnv =
        iteration 5 [] "ls -l\n".toList parentEnv ∧
    iteration 5 [] "ls -l\n".toList parentEnv =
      ⟨[Event.printf "osh>".toList, Event.fork 8, Event.waitpid (-1) 0, Event.wait 8],
        "ls -l".toList, some "ls -l".toList, [], Control.next⟩ :=
  have h := history_repeat 5 5 parentEnv parentEnv [] "ls -l\n".toList "!!\n".toList
    [(5, "!!\n".toList, parentEnv)] (by decide) (by decide) (by decide) (by decide)
    (by decide) (by decide)
  ⟨h.1, h.2.1, h.2.2.1, h.2.2.2.1, h.2.2.2.2.1, h.2.2.2.2.2.2.1, by decide⟩

/-- C6: in a round that hands a line to `parseLine` (the line read is not empty, not
`exit`, and not `!!` with an empty history buffer), when `parseLine` leaves the
sentinel in `args[0]`, the round prints the prompt and then exactly one message, which
begins `Error: Syntax error`, makes no system call (no `pipe`, no `fork`), leaves the
children as they were and goes on to the next prompt. -/
theorem bare_operator_round (fuel : Nat) (history input : CStr) (env : Env) (r : ParseResult)
    (hne : input.takeWhile (fun c => c ≠ '\n') ≠ [])
    (hexit : input.takeWhile (fun c => c ≠ '\n') ≠ "exit".toList)
    (hhist : ¬ (input.takeWhile (fun c => c ≠ '\n') = "!!".toList ∧ history = []))
    (hparse : parseLine
      (if input.takeWhile (fun c => c ≠ '\n') = "!!".toList
        then strncpy history (MAX_LENGTH + 1) else input.takeWhile (fun c => c ≠ '\n'))
      initMods = some r)
    (hargs : r.argv.head? = some none) :
    (iteration fuel history input env).trace =
      [Event.printf "osh>".toList,
        Event.printf ("Error: Syntax error".toList ++
          (" near unexpected token '".toList ++ r.line ++ "'.\n".toList))] ∧
    (iteration fuel history input env).children = env.children ∧
    (iteration fuel history input env).control = Control.next := by
  have hr : r.args = [] := by
    cases h : r.args with
    | nil => rfl
    | cons a l => simp [ParseResult.argv, h] at hargs
  have hexec : execute fuel r env =
      ([Event.printf ("Error: Syntax error near unexpected token '".toList ++ r.line ++
        "'.\n".toList)], env.children, Control.next) := by
    unfold execute
    rw [hr]
  unfold iteration
  simp only [if_neg hexit, if_neg hne, if_neg hhist]
  by_cases hb : input.takeWhile (fun c => c ≠ '\n') = "!!".toList
  · have hh : history ≠ [] := fun h => hhist ⟨hb, h⟩
    rw [if_pos hb] at hparse
    simp only [hb, hh, true_and, ne_eq, not_false_eq_true, decide_True, if_true, hparse,
      hexec, and_true]
    rfl
  · rw [if_neg hb] at hparse
    simp only [hb, false_and, decide_False, Bool.false_eq_true, if_false, hparse, hexec, and_true]
    rfl

/-- C6, witness: a bare `>`. -/
theorem bare_operator_round_witness :
    (iteration 5 [] ">\n".toList parentEnv).trace =
      [Event.printf "osh>".toList,
        Event.printf ("Error: Syntax error".toList ++
          (" near unexpected token '".toList ++ ">".toList ++ "'.\n".toList))] ∧
    (iteration 5 [] ">\n".toList parentEnv).children = parentEnv.children ∧
    (iteration 5 [] ">\n".toList parentEnv).control = Control.next :=
  bare_operator_round 5 [] ">\n".toList parentEnv
    ⟨">".toList, [], { initMods with outputRedirect := "1".toList }⟩
    (by decide) (by decide) (by decide) (by decide) (by decide)

/-- C7 (the code departs from the claim): a single process whose program `nosuch` is not
found prints `Errdor: Command 'nosuch' not found.` (line 143), which is not the text
`Error: Command 'nosuch' not found.` that the first and the second stage of a pipeline
print (lines 112, 120); all three then call `exit(1)`. -/
theorem not_found_message :
    iteration 5 [] "nosuch\n".toList (lostChildEnv 0) =
      ⟨[Event.printf "osh>".toList, Event.fork 0,
          Event.execvp "nosuch".toList [some "nosuch".toList, none],
          Event.printf "Errdor: Command 'nosuch' not found.\n".toList, Event.exit 1],
        "nosuch".toList, some "nosuch".toList, [], Control.exited 1⟩ ∧
    "Errdor: Command 'nosuch' not found.\n".toList ≠ notFound "nosuch".toList ∧
    notFound "nosuch".toList = "Error: Command 'nosuch' not found.\n".toList ∧
    iteration 5 [] "nosuch | wc\n".toList (lostChildEnv 0) =
      ⟨[Event.printf "osh>".toList, Event.pipe 0, Event.fork 0, Event.fork 0,
          Event.close Desc.pipeRead, Event.dup2 Desc.pipeWrite Desc.stdout,
          Event.execvp "nosuch".toList [some "nosuch".toList, none],
          Event.printf "Error: Command 'nosuch' not found.\n".toList, Event.exit 1],
        "nosuch | wc".toList, some "nosuch | wc".toList, [], Control.exited 1⟩ ∧
    iteration 5 [] "ls | nosuch\n".toList (lostChildEnv 9) =
      ⟨[Event.printf "osh>".toList, Event.pipe 0, Event.fork 0, Event.fork 9,
          Event.wait 9, Event.close Desc.pipeWrite, Event.dup2 Desc.pipeRead Desc.stdin,
          Event.execvp "nosuch".toList [some "nosuch".toList, none],
          Event.printf "Error: Command 'nosuch' not found.\n".toList, Event.exit 1],
        "ls | nosuch".toList, some "ls | nosuch".toList, [], Control.exited 1⟩ := by
  refine ⟨by decide, by decide, by decide, by decide, by decide⟩

/-- Once every child is reaped, `waitpid(-1, NULL, WNOHANG)` returns -1 for ever: the
loop of line 151 does not end. -/
theorem sweep_no_children (fuel : Nat) :
    sweep fuel [] = (List.replicate fuel (Event.waitpid (-1) (-1)), [], false) := by
  induction fuel with
  | zero => rfl
  | succ n ih =>
    have h : waitpidAny [] = (-1, []) := rfl
    simp only [sweep, h, ih, List.replicate_succ]
    rfl

/-- C8 (the code departs from the claim): a foreground command `sleep 10` is entered
while child 7 of an earlier background command is still running; `fork` returns the
new child 8; the sweep finds no terminated child; child 7 is the first to terminate,
`wait(NULL)` returns 7 and the round ends with the next prompt while child 8, the one
spawned for this command, is still running. -/
theorem foreground_wait_any :
    iteration 5 "sleep 2 &".toList "sleep 10\n".toList
        { parentEnv with children := [⟨7, false⟩], firstExit := some 7 } =
      ⟨[Event.printf "osh>".toList, Event.fork 8, Event.waitpid (-1) 0, Event.wait 7],
        "sleep 10".toList, some "sleep 10".toList, [⟨8, false⟩], Control.next⟩ := by
  decide

/-- C9 (the code departs from the claim): a background command `true &` is entered with
no other children, and the new child 8 has terminated when the parent reaches line 151.
The first `waitpid(-1, NULL, WNOHANG)` reaps it and returns 8, every later one returns
-1, which is not 0: after any number of calls the parent is still in the loop, and
neither the status check on the new child nor the next prompt is reached. -/
theorem background_sweep_spins (fuel : Nat) :
    iteration (fuel + 1) [] "true &\n".toList { parentEnv with childExited := true } =
      ⟨[Event.printf "osh>".toList, Event.fork 8, Event.waitpid (-1) 8] ++
          List.replicate fuel (Event.waitpid (-1) (-1)),
        "true &".toList, some "true &".toList, [], Control.sweeping⟩ := by
  have hp : parseLine "true &".toList initMods =
      some ⟨"true".toList, ["true".toList], { initMods with background := "1".toList }⟩ := by
    decide
  have hl : ("true &\n".toList).takeWhile (fun c => c ≠ '\n') = "true &".toList := by decide
  have n1 : "true &".toList ≠ "exit".toList := by decide
  have n2 : "true &".toList ≠ ([] : CStr) := by decide
  have n3 : "true &".toList ≠ "!!".toList := by decide
  have hw : waitpidAny ([] ++ [(⟨8, true⟩ : Child)]) = (8, []) := by decide
  have hs : sweep (fuel + 1) ([] ++ [(⟨8, true⟩ : Child)]) =
      (Event.waitpid (-1) 8 :: List.replicate fuel (Event.waitpid (-1) (-1)), [], false) := by
    simp only [sweep, hw, sweep_no_children]
    rfl
  have hpar : parent (fuel + 1) { initMods with background := "1".toList } 8
      { parentEnv with childExited := true } =
      (Event.waitpid (-1) 8 :: List.replicate fuel (Event.waitpid (-1) (-1)), [],
        Control.sweeping) := by
    have e1 : parent (fuel + 1) { initMods with background := "1".toList } 8
        { parentEnv with childExited := true } =
        (if (sweep (fuel + 1) ([] ++ [(⟨8, true⟩ : Child)])).2.2 = false then
          ((sweep (fuel + 1) ([] ++ [(⟨8, true⟩ : Child)])).1,
            (sweep (fuel + 1) ([] ++ [(⟨8, true⟩ : Child)])).2.1, Control.sweeping)
         else
          ((sweep (fuel + 1) ([] ++ [(⟨8, true⟩ : Child)])).1 ++
              [Event.waitpid 8 (waitpidChild 8
                (sweep (fuel + 1) ([] ++ [(⟨8, true⟩ : Child)])).2.1).1],
            (waitpidChild 8 (sweep (fuel + 1) ([] ++ [(⟨8, true⟩ : Child)])).2.1).2,
            Control.next)) := rfl
    rw [e1, hs]
    rfl
  have he : execute (fuel + 1)
      ⟨"true".toList, ["true".toList], { initMods with background := "1".toList }⟩
      { parentEnv with childExited := true } =
      (Event.fork 8 :: Event.waitpid (-1) 8 :: List.replicate fuel (Event.waitpid (-1) (-1)),
        [], Control.sweeping) := by
    have e1 : execute (fuel + 1)
        ⟨"true".toList, ["true".toList], { initMods with background := "1".toList }⟩
        { parentEnv with childExited := true } =
        (Event.fork 8 :: (parent (fuel + 1) { initMods with background := "1".toList } 8
            { parentEnv with childExited := true }).1,
          (parent (fuel + 1) { initMods with background := "1".toList } 8
            { parentEnv with childExited := true }).2.1,
          (parent (fuel + 1) { initMods with background := "1".toList } 8
            { parentEnv with childExited := true }).2.2) := rfl
    rw [e1, hpar]
  unfold iteration
  simp only [hl, if_neg n1, if_neg n2, n3, false_and, if_false, decide_False,
    Bool.false_eq_true, hp, he]
  rfl

end Shell
